import Mathlib

/-!
Verification development for the `solana-transaction-builder` repository.

The Rust sources are shallowly embedded as executable Lean definitions:

* `src/libs/solana-transaction-builder/src/transaction_builder.rs`
  (`TransactionBuilder`, admission, pack handling, `build_next`,
  `build_next_combined`, `fits_single_transaction`);
* `src/libs/solana-transaction-builder/src/signature_builder.rs`
  (`SignatureBuilder`, `signers_for_transaction`);
* `src/libs/solana-transaction-builder-executor/src/builder_executor.rs`
  (`TransactionBuilderExecutionData`, the candidate stream of
  `execute_transactions_in_sequence`, `send_async_transaction_builder_combined`);
* `src/src/transaction_instruction.rs` (`TransactionAccount` round trips).

Solana SDK collaborators used by those files (legacy `Message` compilation,
`Transaction::new_with_payer`, bincode wire sizes, `Transaction::try_sign`)
are embedded from the SDK's documented behaviour, since every size and signer
check in the repository is routed through them.

Conventions of the embedding:

* a public key is a `Nat` (abstracting the 32-byte identifier; the wire size
  is accounted for explicitly);
* a signer (`Arc<dyn Signer>`) is observable in the verified claims only
  through its public key, so it is modelled by that key; the
  `SignatureBuilder` map from pubkey to signer becomes the list of its keys
  (`HashMap::insert` keyed by `signer.pubkey()` keeps the key set dedup'ed);
* Rust methods that mutate `&mut self` and return `Result`/`Option` become
  functions returning the new state paired with the result;
* a Rust panic (`unwrap`/`expect` failure) is modelled by an `Option`
  result of `none` at the operation level;
* the `OnceCell` holding the current instruction pack is an `Option`:
  `take()` leaves `none` behind, `get_mut().unwrap()` on `none` panics.
-/

/-- A Solana public key, abstracted to a natural number.  Ordering of `Nat`
stands in for the byte-wise ordering used by `BTreeMap<Pubkey, _>` during
message compilation; the 32-byte wire size is added explicitly by the
serialization-size functions. -/
abbrev Pubkey := Nat

/-- Source: `solana_sdk::instruction::AccountMeta`: a pubkey plus signer/writable
flags. -/
structure AccountMeta where
  pubkey : Pubkey
  is_signer : Bool
  is_writable : Bool
deriving DecidableEq, Repr

/-- Source: `AccountMeta::new(pubkey, is_signer)`: writable account meta. -/
def AccountMeta.new (pubkey : Pubkey) ( is_signer : Bool) : AccountMeta :=
  ⟨pubkey, is_signer, true⟩

/-- Source: `AccountMeta::new_readonly(pubkey, is_signer)`: read-only account meta. -/
def AccountMeta.new_readonly (pubkey : Pubkey) ( is_signer : Bool) : AccountMeta :=
  ⟨pubkey, is_signer, false⟩

/-- Source: `solana_sdk::instruction::Instruction`: program id, account metas and an
raw byte payload (bytes as `Nat`s; only their count enters wire sizes). -/
structure Instruction where
  program_id : Pubkey
  accounts : List AccountMeta
  data : List Nat
deriving DecidableEq, Repr

/-- Per-key metadata accumulated by the SDK's `CompiledKeys::compile`
(`is_signer` / `is_writable` are OR-folded over occurrences, `is_invoked`
marks program ids). -/
structure KeyMeta where
  is_signer : Bool
  is_writable : Bool
  is_invoked : Bool
deriving DecidableEq, Repr

/-- Source: `CompiledKeyMeta::default()`. -/
def KeyMeta.empty : KeyMeta := ⟨false, false, false⟩

/-- Source: `key_meta_map.entry(k).or_default()` followed by a mutation `f`, on the
`BTreeMap` modelled as a list sorted by key. -/
def updateMeta : List (Pubkey × KeyMeta) → Pubkey → (KeyMeta → KeyMeta) →
    List (Pubkey × KeyMeta)
  | [], k, f => [(k, f KeyMeta.empty)]
  | (k', m') :: rest, k, f =>
    if k < k' then (k, f KeyMeta.empty) :: (k', m') :: rest
    else if k = k' then (k', f m') :: rest
    else (k', m') :: updateMeta rest k f

/-- One `account_meta` step of `CompiledKeys::compile`:
`meta.is_signer |= account_meta.is_signer; meta.is_writable |= account_meta.is_writable`. -/
def applyAccount (m : List (Pubkey × KeyMeta)) (a : AccountMeta) :
    List (Pubkey × KeyMeta) :=
  updateMeta m a.pubkey fun km =>
    { km with is_signer := km.is_signer || a.is_signer,
              is_writable := km.is_writable || a.is_writable }

/-- One instruction step of `CompiledKeys::compile`: mark the program id as
invoked, then fold the instruction's account metas. -/
def applyInstruction (m : List (Pubkey × KeyMeta)) (ix : Instruction) :
    List (Pubkey × KeyMeta) :=
  ix.accounts.foldl applyAccount (updateMeta m ix.program_id fun km => { km with is_invoked := true })

/-- Source: `CompiledKeys::compile(instructions, Some(payer))`: fold all instructions,
then force the payer to signer + writable. -/
def compileKeys (instructions : List Instruction) (payer : Pubkey) :
    List (Pubkey × KeyMeta) :=
  updateMeta (instructions.foldl applyInstruction []) payer
    fun km => { km with is_signer := true, is_writable := true }

/-- Source: `solana_sdk::message::MessageHeader`.  The counts are `u8` in Rust and the
source panics (`expect` in `Message::new`) past 255 keys; they are kept as
`Nat` here, each occupying one wire byte. -/
structure MessageHeader where
  num_required_signatures : Nat
  num_readonly_signed_accounts : Nat
  num_readonly_unsigned_accounts : Nat
deriving DecidableEq, Repr

/-- Source: `CompiledKeys::try_into_message_components`: remove the payer entry, then
lay out writable signers (payer first), readonly signers, writable
non-signers, readonly non-signers. -/
def intoMessageComponents (payer : Pubkey) (km : List (Pubkey × KeyMeta)) :
    MessageHeader × List Pubkey :=
  let km := km.filter fun e => e.1 ≠ payer
  let writable_signer_keys :=
    payer :: (km.filter fun e => e.2.is_signer && e.2.is_writable).map Prod.fst
  let readonly_signer_keys :=
    (km.filter fun e => e.2.is_signer && !e.2.is_writable).map Prod.fst
  let writable_non_signer_keys :=
    (km.filter fun e => !e.2.is_signer && e.2.is_writable).map Prod.fst
  let readonly_non_signer_keys :=
    (km.filter fun e => !e.2.is_signer && !e.2.is_writable).map Prod.fst
  (⟨writable_signer_keys.length + readonly_signer_keys.length,
    readonly_signer_keys.length,
    readonly_non_signer_keys.length⟩,
   writable_signer_keys ++ readonly_signer_keys ++
     writable_non_signer_keys ++ readonly_non_signer_keys)

/-- Source: `solana_sdk::instruction::CompiledInstruction`: indices into the message's
account keys plus the raw data. -/
structure CompiledInstruction where
  program_id_index : Nat
  accounts : List Nat
  data : List Nat
deriving DecidableEq, Repr

/-- Source: `compile_instruction`: replace pubkeys by their positions in the
account-keys list (`position(...).unwrap()`; the keys are always present for
a compiled message). -/
def compileInstruction (keys : List Pubkey) (ix : Instruction) :
    CompiledInstruction :=
  ⟨keys.indexOf ix.program_id,
   ix.accounts.map fun a => keys.indexOf a.pubkey,
   ix.data⟩

/-- A recent blockhash, abstracted to a `Nat` (32 wire bytes, counted
explicitly). `Hash::default()` is `0`. -/
abbrev Hash := Nat

/-- Source: `solana_sdk::message::Message` (legacy). -/
structure Message where
  header : MessageHeader
  account_keys : List Pubkey
  recent_blockhash : Hash
  instructions : List CompiledInstruction
deriving DecidableEq, Repr

/-- Source: `Message::new(instructions, Some(&payer))` (via
`Message::new_with_blockhash` with `Hash::default()`). -/
def Message.new (instructions : List Instruction) (payer : Pubkey) : Message :=
  let comps := intoMessageComponents payer (compileKeys instructions payer)
  { header := comps.1
    account_keys := comps.2
    recent_blockhash := 0
    instructions := instructions.map (compileInstruction comps.2) }

/-- An ed25519 signature slot: `none` is `Signature::default()` (all zeroes),
`some (k, h)` abstracts the signature by key `k` over the message under
recent blockhash `h`.  Either way it occupies 64 wire bytes. -/
abbrev Signature := Option (Pubkey × Hash)

/-- Source: `solana_sdk::transaction::Transaction` (legacy). -/
structure Transaction where
  signatures : List Signature
  message : Message
deriving DecidableEq, Repr

/-- Source: `Transaction::new_unsigned`: default signatures sized to the header's
required-signature count. -/
def Transaction.new_unsigned (message : Message) : Transaction :=
  ⟨List.replicate message.header.num_required_signatures none, message⟩

/-- Source: `Transaction::new_with_payer(&instructions, Some(&payer))`. -/
def Transaction.new_with_payer (instructions : List Instruction)
    (payer : Pubkey) : Transaction :=
  Transaction.new_unsigned (Message.new instructions payer)

/-- Length of the `short_vec` (compact-u16) encoding of `n`.  Lengths above
`u16::MAX` cannot be produced by the SDK serializer, so three bytes suffice. -/
def shortvecLen (n : Nat) : Nat :=
  if n < 128 then 1 else if n < 16384 then 2 else 3

/-- Wire size of one compiled instruction: program-id index byte, compact
account-index list, compact data bytes. -/
def compiledInstructionSize (ci : CompiledInstruction) : Nat :=
  1 + shortvecLen ci.accounts.length + ci.accounts.length +
    shortvecLen ci.data.length + ci.data.length

/-- Bincode wire size of a legacy message: 3 header bytes, compact list of
32-byte keys, 32-byte blockhash, compact list of instructions. -/
def messageSize (m : Message) : Nat :=
  3 + shortvecLen m.account_keys.length + 32 * m.account_keys.length + 32 +
    shortvecLen m.instructions.length +
    (m.instructions.map compiledInstructionSize).sum

/-- Source: `bincode::serialize(&transaction).unwrap().len()`: compact list of
64-byte signatures followed by the message. -/
def serializedTransactionSize (t : Transaction) : Nat :=
  shortvecLen t.signatures.length + 64 * t.signatures.length +
    messageSize t.message

example :
    serializedTransactionSize (Transaction.new_with_payer [] 0) = 134 := by
  decide

example :
    serializedTransactionSize
      (Transaction.new_with_payer [⟨1, [], []⟩] 0) = 169 := by
  decide

/-! ## Signature registry (`signature_builder.rs`) -/

/-- Source: `SignatureBuilder`: `HashMap<Pubkey, Arc<dyn Signer>>`.  Each stored
signer is keyed by its own pubkey (`insert(signer.pubkey(), signer)`), and in
the verified claims a signer is observable only through that pubkey, so the
map is modelled by its key list (insertion replaces, keeping keys dedup'ed). -/
structure SignatureBuilder where
  signers : List Pubkey
deriving DecidableEq, Repr

/-- Source: `SignatureBuilder::default()`. -/
def SignatureBuilder.empty : SignatureBuilder := ⟨[]⟩

/-- Source: `add_signer(&mut self, signer)`: insert keyed by the signer's pubkey
(which it also returns). -/
def SignatureBuilder.add_signer (sb : SignatureBuilder) (k : Pubkey) :
    SignatureBuilder :=
  if sb.signers.contains k then sb else ⟨sb.signers ++ [k]⟩

/-- Source: `contains_key`. -/
def SignatureBuilder.contains_key (sb : SignatureBuilder) (k : Pubkey) : Bool :=
  sb.signers.contains k

/-- Source: `get_signer`: the stored signer for `k`, observable as its pubkey. -/
def SignatureBuilder.get_signer (sb : SignatureBuilder) (k : Pubkey) :
    Option Pubkey :=
  if sb.signers.contains k then some k else none

/-- Source: `signers_for_transaction`: map the required-signatures prefix of the
account keys through the registry, failing with the first missing pubkey
(`.map(|key| get(key).ok_or(*key)).collect::<Result<_,_>>()`). -/
def SignatureBuilder.signers_for_transaction (sb : SignatureBuilder)
    (t : Transaction) : Except Pubkey (List Pubkey) :=
  (t.message.account_keys.take t.message.header.num_required_signatures).mapM
    fun key =>
      match sb.get_signer key with
      | some s => Except.ok s
      | none => Except.error key

/-! ## Prepared transaction (`prepared_transaction.rs`)

The revision of `prepared_transaction.rs` under `src/` stores the unsigned
transaction and the resolved signer vector; the canonical revision invoked by
`transaction_builder.rs` additionally takes the per-instruction description
vector (`PreparedTransaction::new(transaction, &signature_builder,
descriptions)`).  The description field is modelled from the spec: the
Prepared Transaction carries an "optional per-instruction description
vector", stored as handed over by the builder. -/

structure PreparedTransaction where
  transaction : Transaction
  signers : List Pubkey
  instruction_descriptions : List (Option String)
deriving DecidableEq, Repr

/-- Source: `PreparedTransaction::new(transaction, &signature_builder, descriptions)`:
resolve the signer vector through the registry, or fail with the missing
pubkey. -/
def PreparedTransaction.new (transaction : Transaction)
    (signature_builder : SignatureBuilder)
    (descriptions : List (Option String)) :
    Except Pubkey PreparedTransaction :=
  match signature_builder.signers_for_transaction transaction with
  | Except.error k => Except.error k
  | Except.ok signers => Except.ok ⟨transaction, signers, descriptions⟩

/-! ## Transaction builder (`transaction_builder.rs`) -/

/-- Source: `TransactionBuildError`. -/
inductive TransactionBuildError where
  | UnknownSigner (k : Pubkey)
  | TooBigTransaction
deriving DecidableEq, Repr

/-- An instruction pack: instructions paired with optional descriptions. -/
abbrev InstructionPack := List (Instruction × Option String)

/-- Source: `TransactionBuilder`.  `current_instruction_pack` is a `OnceCell`:
`none` models the unset cell (after `take()`), `some l` the cell
holding pack `l`. -/
structure TransactionBuilder where
  fee_payer : Pubkey
  signature_builder : SignatureBuilder
  instruction_packs : List InstructionPack
  current_instruction_pack : Option InstructionPack
  max_transaction_size : Nat
deriving DecidableEq, Repr

/-- Source: `TransactionBuilder::new(fee_payer, max_transaction_size)`: register the
fee payer in a fresh registry and start the current pack as to an empty
vector. -/
def TransactionBuilder.new (fee_payer : Pubkey) (max_transaction_size : Nat) :
    TransactionBuilder :=
  { fee_payer := fee_payer
    signature_builder := SignatureBuilder.empty.add_signer fee_payer
    instruction_packs := []
    current_instruction_pack := some []
    max_transaction_size := max_transaction_size }

/-- Source: `PACKET_DATA_SIZE`. -/
def PACKET_DATA_SIZE : Nat := 1232

/-- Source: `TransactionBuilder::limited(fee_payer)`. -/
def TransactionBuilder.limited (fee_payer : Pubkey) : TransactionBuilder :=
  TransactionBuilder.new fee_payer PACKET_DATA_SIZE

/-- Source: `TransactionBuilder::unlimited(fee_payer)`: `max_transaction_size = 0`
means no cap. -/
def TransactionBuilder.unlimited (fee_payer : Pubkey) : TransactionBuilder :=
  TransactionBuilder.new fee_payer 0

/-- Source: `add_signer(&mut self, signer)` on the builder (the returned pubkey is
the argument's). -/
def TransactionBuilder.add_signer (b : TransactionBuilder) (k : Pubkey) :
    TransactionBuilder :=
  { b with signature_builder := b.signature_builder.add_signer k }

/-- Source: `generate_signer` / `SignatureBuilder::new_signer`: a fresh keypair is
generated and registered; `k` models the generated keypair's pubkey. -/
def TransactionBuilder.new_signer (b : TransactionBuilder) (k : Pubkey) :
    TransactionBuilder :=
  { b with signature_builder := b.signature_builder.add_signer k }

/-- Source: `check_signers`: the first `is_signer` account meta whose pubkey is not
in the registry yields `UnknownSigner`. -/
def TransactionBuilder.check_signers (b : TransactionBuilder)
    (instruction : Instruction) : Option TransactionBuildError :=
  match instruction.accounts.find? fun account =>
      account.is_signer && !(b.signature_builder.contains_key account.pubkey) with
  | some account => some (TransactionBuildError.UnknownSigner account.pubkey)
  | none => none

/-- Source: `finish_instruction_pack`: `take().expect(..)` then `set(Vec::new())`.
Panics (`none`) if the current-pack cell is unset. -/
def TransactionBuilder.finish_instruction_pack (b : TransactionBuilder) :
    Option TransactionBuilder :=
  match b.current_instruction_pack with
  | none => none
  | some l =>
    some { b with instruction_packs := b.instruction_packs ++ [l],
                  current_instruction_pack := some [] }

/-- Source: `abort_instruction_pack`: `take().expect(..)` only — the cell is left
unset (no `set` follows, unlike `finish_instruction_pack`). -/
def TransactionBuilder.abort_instruction_pack (b : TransactionBuilder) :
    Option TransactionBuilder :=
  match b.current_instruction_pack with
  | none => none
  | some _ => some { b with current_instruction_pack := none }

/-- Source: `is_current_pack_empty`: `get()` on an unset cell counts as
empty. -/
def TransactionBuilder.is_current_pack_empty (b : TransactionBuilder) : Bool :=
  match b.current_instruction_pack with
  | some current => current.isEmpty
  | none => true

/-- Source: `is_empty`. -/
def TransactionBuilder.is_empty (b : TransactionBuilder) : Bool :=
  b.is_current_pack_empty && b.instruction_packs.isEmpty

/-- Source: `add_instruction_internal`: check signers, push onto the current pack
(`get_mut().unwrap()` — panic when the cell is unset), serialize the
candidate transaction, and pop with `TooBigTransaction` if a positive size
budget is exceeded. -/
def TransactionBuilder.add_instruction_internal (b : TransactionBuilder)
    (instruction : Instruction) (description : Option String) :
    Option (TransactionBuilder × Option TransactionBuildError) :=
  match b.check_signers instruction with
  | some e => some (b, some e)
  | none =>
    match b.current_instruction_pack with
    | none => none
    | some current0 =>
      let current := current0 ++ [(instruction, description)]
      let transaction_candidate :=
        Transaction.new_with_payer (current.map Prod.fst) b.fee_payer
      let tx_size_candidate := serializedTransactionSize transaction_candidate
      if 0 < b.max_transaction_size ∧ b.max_transaction_size < tx_size_candidate then
        some ({ b with current_instruction_pack := some current.dropLast },
              some TransactionBuildError.TooBigTransaction)
      else
        some ({ b with current_instruction_pack := some current }, none)

/-- Source: `add_instruction`. -/
def TransactionBuilder.add_instruction (b : TransactionBuilder)
    (instruction : Instruction) :
    Option (TransactionBuilder × Option TransactionBuildError) :=
  b.add_instruction_internal instruction none

/-- Source: `add_instruction_with_description`. -/
def TransactionBuilder.add_instruction_with_description
    (b : TransactionBuilder) (instruction : Instruction)
    (description : String) :
    Option (TransactionBuilder × Option TransactionBuildError) :=
  b.add_instruction_internal instruction (some description)

/-- The shared head of `build_next` / `build_next_combined`:
`if !self.is_current_pack_empty() { self.finish_instruction_pack() }`. -/
def TransactionBuilder.normalize_current (b : TransactionBuilder) :
    Option TransactionBuilder :=
  if b.is_current_pack_empty then some b else b.finish_instruction_pack

/-- Source: `build_next`: finish a non-empty current pack, then pop the oldest pack
and materialize it with the fee payer.  Outer `none` models the
`.expect("Signature keys must be checked when instruction added")` panic;
inner `none` means no packs remain. -/
def TransactionBuilder.build_next (b : TransactionBuilder) :
    Option (TransactionBuilder × Option PreparedTransaction) :=
  match b.normalize_current with
  | none => none
  | some b1 =>
    if b1.is_empty then some (b1, none)
    else
      match b1.instruction_packs with
      | [] => some (b1, none)
      | pack :: rest =>
        let instructions := pack.map Prod.fst
        let descriptions := pack.map Prod.snd
        let transaction := Transaction.new_with_payer instructions b1.fee_payer
        match PreparedTransaction.new transaction b1.signature_builder descriptions with
        | Except.error _ => none
        | Except.ok pt => some ({ b1 with instruction_packs := rest }, some pt)

/-- Accumulator of the greedy combine loop in `build_next_combined`. -/
structure CombineState where
  instructions : List Instruction
  descriptions : List (Option String)
  transaction : Transaction
  remaining : List InstructionPack
deriving DecidableEq, Repr

/-- The `while let Some(next_pack) = self.instruction_packs.first()` loop of
`build_next_combined`: tentatively extend the instruction and description
vectors, serialize, and either commit the candidate and drop the peeked
pack, or break — leaving the already-extended vectors in place. -/
def combineLoop (payer : Pubkey) (max : Nat) (instructions : List Instruction)
    (descriptions : List (Option String)) (transaction : Transaction) :
    List InstructionPack → CombineState
  | [] => ⟨instructions, descriptions, transaction, []⟩
  | next :: rest =>
    let instructions' := instructions ++ next.map Prod.fst
    let descriptions' := descriptions ++ next.map Prod.snd
    let transaction_candidate := Transaction.new_with_payer instructions' payer
    if serializedTransactionSize transaction_candidate ≤ max then
      combineLoop payer max instructions' descriptions' transaction_candidate rest
    else
      ⟨instructions', descriptions', transaction, next :: rest⟩

/-- Source: `build_next_combined`: finish a non-empty current pack; with no size
budget drain every pack into one transaction, otherwise start from the first
pack and greedily append whole packs while the serialized candidate fits. -/
def TransactionBuilder.build_next_combined (b : TransactionBuilder) :
    Option (TransactionBuilder × Option PreparedTransaction) :=
  match b.normalize_current with
  | none => none
  | some b1 =>
    if b1.instruction_packs.isEmpty then some (b1, none)
    else if b1.max_transaction_size = 0 then
      let all := b1.instruction_packs.flatten
      let instructions := all.map Prod.fst
      let descriptions := all.map Prod.snd
      let transaction := Transaction.new_with_payer instructions b1.fee_payer
      match PreparedTransaction.new transaction b1.signature_builder descriptions with
      | Except.error _ => none
      | Except.ok pt => some ({ b1 with instruction_packs := [] }, some pt)
    else
      match b1.instruction_packs with
      | [] => some (b1, none)
      | first :: rest =>
        let st := combineLoop b1.fee_payer b1.max_transaction_size
          (first.map Prod.fst) (first.map Prod.snd)
          (Transaction.new_with_payer (first.map Prod.fst) b1.fee_payer) rest
        match PreparedTransaction.new st.transaction b1.signature_builder st.descriptions with
        | Except.error _ => none
        | Except.ok pt => some ({ b1 with instruction_packs := st.remaining }, some pt)

/-- Source: `instructions`: flatten all packs and the current pack, dropping
descriptions. -/
def TransactionBuilder.instructions (b : TransactionBuilder) :
    List Instruction :=
  (b.instruction_packs.flatten.map Prod.fst) ++
    (match b.current_instruction_pack with
     | some current => current.map Prod.fst
     | none => [])

/-- Source: `fits_single_transaction`: all accumulated instructions, materialized
with the fee payer, serialize to at most `max_transaction_size` bytes. -/
def TransactionBuilder.fits_single_transaction (b : TransactionBuilder) : Bool :=
  serializedTransactionSize
    (Transaction.new_with_payer b.instructions b.fee_payer) ≤
    b.max_transaction_size

/-! ## Iterators `sequence` / `sequence_combined`

`Sequence::next` is `build_next`; `CombinedSequence::next` is
`build_next_combined`.  Exhausting an iterator is modelled with explicit
fuel; `TransactionBuilder.measure` (packs plus a possible current pack) is
enough fuel, and the stability lemmas below show that more fuel never
changes the outcome. -/

/-- Number of pending packs, counting a non-empty current pack. -/
def TransactionBuilder.measure (b : TransactionBuilder) : Nat :=
  b.instruction_packs.length + (if b.is_current_pack_empty then 0 else 1)

/-- Repeatedly call `build_next`, collecting emissions, until it returns no
transaction (or panics, which aborts the drain). -/
def drainSeqFuel : Nat → TransactionBuilder →
    TransactionBuilder × List PreparedTransaction
  | 0, b => (b, [])
  | fuel + 1, b =>
    match b.build_next with
    | none => (b, [])
    | some (b', none) => (b', [])
    | some (b', some pt) =>
      let r := drainSeqFuel fuel b'
      (r.1, pt :: r.2)

/-- Exhaust `sequence()`. -/
def TransactionBuilder.drainSeq (b : TransactionBuilder) :
    TransactionBuilder × List PreparedTransaction :=
  drainSeqFuel b.measure b

/-- Repeatedly call `build_next_combined`, collecting emissions. -/
def drainCombinedFuel : Nat → TransactionBuilder →
    TransactionBuilder × List PreparedTransaction
  | 0, b => (b, [])
  | fuel + 1, b =>
    match b.build_next_combined with
    | none => (b, [])
    | some (b', none) => (b', [])
    | some (b', some pt) =>
      let r := drainCombinedFuel fuel b'
      (r.1, pt :: r.2)

/-- Exhaust `sequence_combined()`. -/
def TransactionBuilder.drainCombined (b : TransactionBuilder) :
    TransactionBuilder × List PreparedTransaction :=
  drainCombinedFuel b.measure b

/-! ## Signing (`Transaction::try_sign`, `prepared_transaction.rs`) -/

/-- Source: `solana_sdk::signer::SignerError` (the variants reachable from
`try_sign`). -/
inductive SignerError where
  | KeypairPubkeyMismatch
  | NotEnoughSigners
deriving DecidableEq, Repr

/-- Source: `Transaction::try_sign(signers, recent_blockhash)`: locate each signer's
pubkey in the required-signatures prefix of the account keys, set the
message's recent blockhash, write the signatures at those positions, and
fail with `NotEnoughSigners` if any signature slot is still default. -/
def Transaction.try_sign (t : Transaction) (signers : List Pubkey)
    (recent_blockhash : Hash) : Except SignerError Transaction :=
  if t.message.account_keys.length < t.message.header.num_required_signatures then
    Except.error SignerError.KeypairPubkeyMismatch
  else
    let signed_keys :=
      t.message.account_keys.take t.message.header.num_required_signatures
    match signers.mapM signed_keys.indexOf? with
    | none => Except.error SignerError.KeypairPubkeyMismatch
    | some positions =>
      let t1 :=
        { t with message.recent_blockhash := recent_blockhash
                 signatures := (positions.zip signers).foldl
                   (fun sigs pk => sigs.set pk.1 (some (pk.2, recent_blockhash)))
                   t.signatures }
      if t1.signatures.all Option.isSome then Except.ok t1
      else Except.error SignerError.NotEnoughSigners

/-- Source: `SignedTransaction::signed_transaction` for `PreparedTransaction` (and
for `SendablePreparedTransaction`, whose per-signer mutex is invisible to
the signing result): clone and `try_sign` with the stored signers. -/
def PreparedTransaction.signed_transaction (pt : PreparedTransaction)
    (recent_blockhash : Hash) : Except SignerError Transaction :=
  pt.transaction.try_sign pt.signers recent_blockhash

/-- Source: `solana_sdk::transaction::VersionedTransaction`, wrapping a signed
legacy transaction (`VersionedTransaction::from`). -/
structure VersionedTransaction where
  legacy : Transaction
deriving DecidableEq, Repr

/-- Source: `SignedTransaction::signed_versioned_transaction`. -/
def PreparedTransaction.signed_versioned_transaction (pt : PreparedTransaction)
    (recent_blockhash : Hash) : Except SignerError VersionedTransaction :=
  match pt.signed_transaction recent_blockhash with
  | Except.error e => Except.error e
  | Except.ok t => Except.ok ⟨t⟩

/-- Source: `PreparedTransaction::into_sendable`: wraps each signer in a mutex; the
observable data (transaction, signer pubkeys, descriptions) is unchanged, so
the sendable variant is modelled by the same structure. -/
def PreparedTransaction.into_sendable (pt : PreparedTransaction) :
    PreparedTransaction := pt

/-! ## Executor (`builder_executor.rs`) -/

/-- Modelled from the spec: a Priority Fee Configuration of the external
`solana-transaction-executor` crate is "a single (compute-unit price,
compute-unit limit) pair". -/
structure PriorityFeeConfiguration where
  compute_unit_price : Nat
  compute_unit_limit : Nat
deriving DecidableEq, Repr

/-- Modelled from the spec: a Priority Fee Policy of the external crate is
"a finite ordered enumeration of Priority Fee Configurations"
(`iter_priority_fee_configuration` traverses `configurations` in order). -/
structure PriorityFeePolicy where
  configurations : List PriorityFeeConfiguration
deriving DecidableEq, Repr

/-- Modelled from the spec: `PriorityFeePolicy::default()` of the external
crate.  Its concrete value is irrelevant to the verified claims. -/
def PriorityFeePolicy.defaultPolicy : PriorityFeePolicy := ⟨[]⟩

/-- Source: `TransactionBuilderExecutionData`. -/
structure TransactionBuilderExecutionData where
  rpc_url : String
  priority_fee_policy : PriorityFeePolicy
  prepared_transaction : PreparedTransaction
  tx_uuid : String
deriving DecidableEq, Repr

/-- The error of `TransactionBuilderExecutionData::build` (an
`anyhow::Result`): either the propagated blockhash-fetch failure or the
propagated signing failure. -/
inductive BuildError where
  | blockhashFetch (e : String)
  | signing (e : SignerError)
deriving DecidableEq, Repr

/-- Source: `TransactionBuilderExecutionData::build(priority_fee_configuration)`:
`get_latest_blockhash(...).await?`, then
`signed_versioned_transaction(latest_blockhash)?`.  `fetched` is the result
the (cached) blockhash fetch returns for this call; the priority-fee
configuration is only logged by the source, hence unused. -/
def TransactionBuilderExecutionData.build (d : TransactionBuilderExecutionData)
    (fetched : Except String Hash)
    (_priority_fee_configuration : PriorityFeeConfiguration) :
    Except BuildError VersionedTransaction :=
  match fetched with
  | Except.error e => Except.error (BuildError.blockhashFetch e)
  | Except.ok latest_blockhash =>
    match d.prepared_transaction.signed_versioned_transaction latest_blockhash with
    | Except.error e => Except.error (BuildError.signing e)
    | Except.ok transaction => Except.ok transaction

/-- The `stream!` block of `execute_transactions_in_sequence`, from the
`i`-th configuration on: `for priority_fee_configuration in
policy.iter_priority_fee_configuration() { yield build(cfg).await }`.
`env j` is the blockhash-fetch result observed by the `j`-th yield. -/
def candidateItemsFrom (env : Nat → Except String Hash)
    (d : TransactionBuilderExecutionData) (i : Nat) :
    List PriorityFeeConfiguration → List (Except BuildError VersionedTransaction)
  | [] => []
  | cfg :: rest => d.build (env i) cfg :: candidateItemsFrom env d (i + 1) rest

/-- The candidate stream handed to
`transaction_executor.execute_transaction`. -/
def candidateItems (env : Nat → Except String Hash)
    (d : TransactionBuilderExecutionData) :
    List (Except BuildError VersionedTransaction) :=
  candidateItemsFrom env d 0 d.priority_fee_policy.configurations

/-- Observable outcome of `send_async_transaction_builder_combined`: the
vector actually passed to `tx_transaction.send(...)`, the
`execution_data` vector the function constructs, and the drained builder. -/
structure SendCombinedResult where
  sent : List TransactionBuilderExecutionData
  execution_data : List TransactionBuilderExecutionData
  final_builder : TransactionBuilder
deriving DecidableEq, Repr

/-- Source: `send_async_transaction_builder_combined`: drains
`transaction_builder.sequence_combined()` into `execution_data` (one entry
per emission, in order, with a fresh uuid — `uuids i` models the `i`-th
`Uuid::new_v4()`), but sends `async_transaction_builders`, which is the
`Vec::new()` bound at the top of the function and never filled. -/
def send_async_transaction_builder_combined (rpc_url : String)
    (b : TransactionBuilder) (priority_fee_policy : Option PriorityFeePolicy)
    (uuids : Nat → String) : SendCombinedResult :=
  let async_transaction_builders : List TransactionBuilderExecutionData := []
  let drained := b.drainCombined
  let execution_data := drained.2.enum.map fun e =>
    { rpc_url := rpc_url
      priority_fee_policy := priority_fee_policy.getD PriorityFeePolicy.defaultPolicy
      prepared_transaction := e.2.into_sendable
      tx_uuid := uuids e.1 : TransactionBuilderExecutionData }
  { sent := async_transaction_builders
    execution_data := execution_data
    final_builder := drained.1 }

/-! ## Multisig instruction wrappers (`transaction_instruction.rs`) -/

/-- Source: `TransactionAccount`. -/
structure TransactionAccount where
  pubkey : Pubkey
  is_signer : Bool
  is_writable : Bool
deriving DecidableEq, Repr

/-- Source: `impl From<&TransactionAccount> for AccountMeta`: dispatch on
`is_writable` to the SDK's writable/readonly constructor. -/
def TransactionAccount.toAccountMeta (account : TransactionAccount) :
    AccountMeta :=
  match account.is_writable with
  | false => AccountMeta.new_readonly account.pubkey account.is_signer
  | true => AccountMeta.new account.pubkey account.is_signer

/-- Source: `impl From<&AccountMeta> for TransactionAccount`: copy the three
fields. -/
def TransactionAccount.fromAccountMeta (account_meta : AccountMeta) :
    TransactionAccount :=
  ⟨account_meta.pubkey, account_meta.is_signer, account_meta.is_writable⟩

/-! ## Lemmas: signer keys of a compiled message

The required-signatures prefix of `Message::new(instructions, payer)`
contains only the payer and pubkeys that occur as an `is_signer` account
meta of some instruction. -/

/-- Some instruction of `instrs` references `p` as a signer account. -/
def SignerIn (instrs : List Instruction) (p : Pubkey) : Prop :=
  ∃ ix ∈ instrs, ∃ a ∈ ix.accounts, a.pubkey = p ∧ a.is_signer = true

theorem SignerIn.mono_instrs {instrs instrs' : List Instruction} {p : Pubkey}
    (hsub : ∀ ix ∈ instrs, ix ∈ instrs') (h : SignerIn instrs p) :
    SignerIn instrs' p := by
  obtain ⟨ix, hix, a, ha, hpk, hs⟩ := h
  exact ⟨ix, hsub ix hix, a, ha, hpk, hs⟩

theorem updateMeta_mem {l : List (Pubkey × KeyMeta)} {k : Pubkey}
    {f : KeyMeta → KeyMeta} {p : Pubkey} {m : KeyMeta}
    (h : (p, m) ∈ updateMeta l k f) :
    (p, m) ∈ l ∨
      (p = k ∧ (m = f KeyMeta.empty ∨ ∃ m0, (p, m0) ∈ l ∧ m = f m0)) := by
  induction l with
  | nil =>
    simp only [updateMeta, List.mem_singleton] at h
    exact Or.inr ⟨congrArg Prod.fst h, Or.inl (congrArg Prod.snd h)⟩
  | cons hd tl ih =>
    obtain ⟨k', m'⟩ := hd
    simp only [updateMeta] at h
    split at h
    · rcases List.mem_cons.mp h with h1 | h2
      · exact Or.inr ⟨congrArg Prod.fst h1, Or.inl (congrArg Prod.snd h1)⟩
      · exact Or.inl h2
    · split at h
      · next heq =>
        rcases List.mem_cons.mp h with h1 | h2
        · have hp : p = k' := congrArg Prod.fst h1
          have hm : m = f m' := congrArg Prod.snd h1
          refine Or.inr ⟨hp.trans heq.symm, Or.inr ⟨m', ?_, hm⟩⟩
          rw [hp]
          exact List.mem_cons_self _ _
        · exact Or.inl (List.mem_cons_of_mem _ h2)
      · rcases List.mem_cons.mp h with h1 | h2
        · exact Or.inl (h1 ▸ List.mem_cons_self _ _)
        · rcases ih h2 with h3 | ⟨hpk, h4⟩
          · exact Or.inl (List.mem_cons_of_mem _ h3)
          · refine Or.inr ⟨hpk, ?_⟩
            rcases h4 with h5 | ⟨m0, hm0, hf⟩
            · exact Or.inl h5
            · exact Or.inr ⟨m0, List.mem_cons_of_mem _ hm0, hf⟩

theorem applyAccount_signer {l : List (Pubkey × KeyMeta)} {a : AccountMeta}
    {p : Pubkey} {m : KeyMeta} (h : (p, m) ∈ applyAccount l a)
    (hs : m.is_signer = true) :
    (∃ m0, (p, m0) ∈ l ∧ m0.is_signer = true) ∨
      (a.pubkey = p ∧ a.is_signer = true) := by
  rcases updateMeta_mem h with h1 | ⟨hpk, h2⟩
  · exact Or.inl ⟨m, h1, hs⟩
  · rcases h2 with h3 | ⟨m0, hm0, hf⟩
    · rw [h3] at hs
      simp only [KeyMeta.empty, Bool.false_or] at hs
      exact Or.inr ⟨hpk.symm, hs⟩
    · rw [hf] at hs
      simp only [Bool.or_eq_true] at hs
      rcases hs with hs | hs
      · exact Or.inl ⟨m0, hm0, hs⟩
      · exact Or.inr ⟨hpk.symm, hs⟩

theorem accountsFold_signer {accounts : List AccountMeta} {p : Pubkey} :
    ∀ {l : List (Pubkey × KeyMeta)} {m : KeyMeta},
    (p, m) ∈ accounts.foldl applyAccount l → m.is_signer = true →
    (∃ m0, (p, m0) ∈ l ∧ m0.is_signer = true) ∨
      ∃ a ∈ accounts, a.pubkey = p ∧ a.is_signer = true := by
  induction accounts with
  | nil =>
    intro l m h hs
    exact Or.inl ⟨m, h, hs⟩
  | cons a rest ih =>
    intro l m h hs
    rcases ih h hs with ⟨m0, hm0, hs0⟩ | ⟨a', ha', hpk, hs'⟩
    · rcases applyAccount_signer hm0 hs0 with h1 | ⟨hpk, hs1⟩
      · exact Or.inl h1
      · exact Or.inr ⟨a, List.mem_cons_self _ _, hpk, hs1⟩
    · exact Or.inr ⟨a', List.mem_cons_of_mem _ ha', hpk, hs'⟩

theorem invokedUpdate_signer {l : List (Pubkey × KeyMeta)} {k p : Pubkey}
    {m : KeyMeta}
    (h : (p, m) ∈ updateMeta l k fun km => { km with is_invoked := true })
    (hs : m.is_signer = true) :
    ∃ m0, (p, m0) ∈ l ∧ m0.is_signer = true := by
  rcases updateMeta_mem h with h1 | ⟨_, h2⟩
  · exact ⟨m, h1, hs⟩
  · rcases h2 with h3 | ⟨m0, hm0, hf⟩
    · rw [h3] at hs
      simp [KeyMeta.empty] at hs
    · rw [hf] at hs
      exact ⟨m0, hm0, hs⟩

theorem applyInstruction_signer {l : List (Pubkey × KeyMeta)}
    {ix : Instruction} {p : Pubkey} {m : KeyMeta}
    (h : (p, m) ∈ applyInstruction l ix) (hs : m.is_signer = true) :
    (∃ m0, (p, m0) ∈ l ∧ m0.is_signer = true) ∨
      ∃ a ∈ ix.accounts, a.pubkey = p ∧ a.is_signer = true := by
  rcases accountsFold_signer h hs with ⟨m0, hm0, hs0⟩ | hr
  · exact Or.inl (invokedUpdate_signer hm0 hs0)
  · exact Or.inr hr

theorem instrsFold_signer {instrs : List Instruction} {p : Pubkey} :
    ∀ {l : List (Pubkey × KeyMeta)} {m : KeyMeta},
    (p, m) ∈ instrs.foldl applyInstruction l → m.is_signer = true →
    (∃ m0, (p, m0) ∈ l ∧ m0.is_signer = true) ∨ SignerIn instrs p := by
  induction instrs with
  | nil =>
    intro l m h hs
    exact Or.inl ⟨m, h, hs⟩
  | cons ix rest ih =>
    intro l m h hs
    rcases ih h hs with ⟨m0, hm0, hs0⟩ | hr
    · rcases applyInstruction_signer hm0 hs0 with h1 | ⟨a, ha, hpk, hs1⟩
      · exact Or.inl h1
      · exact Or.inr ⟨ix, List.mem_cons_self _ _, a, ha, hpk, hs1⟩
    · exact Or.inr (hr.mono_instrs fun j hj => List.mem_cons_of_mem _ hj)

theorem compileKeys_signer {instrs : List Instruction} {payer p : Pubkey}
    {m : KeyMeta} (h : (p, m) ∈ compileKeys instrs payer)
    (hs : m.is_signer = true) : p = payer ∨ SignerIn instrs p := by
  rcases updateMeta_mem h with h1 | ⟨hpk, _⟩
  · rcases instrsFold_signer h1 hs with ⟨m0, hm0, _⟩ | hr
    · simp at hm0
    · exact Or.inr hr
  · exact Or.inl hpk

theorem take_append_append {α} (l1 l2 l3 : List α) :
    (l1 ++ (l2 ++ l3)).take (l1.length + l2.length) = l1 ++ l2 := by
  rw [List.take_append, List.take_left]

theorem message_new_take (instrs : List Instruction) (payer : Pubkey) :
    (Message.new instrs payer).account_keys.take
      (Message.new instrs payer).header.num_required_signatures =
    (payer :: (((compileKeys instrs payer).filter fun e => e.1 ≠ payer).filter
        fun e => e.2.is_signer && e.2.is_writable).map Prod.fst) ++
      (((compileKeys instrs payer).filter fun e => e.1 ≠ payer).filter
        fun e => e.2.is_signer && !e.2.is_writable).map Prod.fst := by
  have h := take_append_append
    (payer :: (((compileKeys instrs payer).filter fun e => e.1 ≠ payer).filter
        fun e => e.2.is_signer && e.2.is_writable).map Prod.fst)
    ((((compileKeys instrs payer).filter fun e => e.1 ≠ payer).filter
        fun e => e.2.is_signer && !e.2.is_writable).map Prod.fst)
    (((((compileKeys instrs payer).filter fun e => e.1 ≠ payer).filter
        fun e => !e.2.is_signer && e.2.is_writable).map Prod.fst) ++
      ((((compileKeys instrs payer).filter fun e => e.1 ≠ payer).filter
        fun e => !e.2.is_signer && !e.2.is_writable).map Prod.fst))
  simpa [Message.new, intoMessageComponents] using h

theorem message_required_mem {instrs : List Instruction} {payer k : Pubkey}
    (h : k ∈ (Message.new instrs payer).account_keys.take
      (Message.new instrs payer).header.num_required_signatures) :
    k = payer ∨ SignerIn instrs k := by
  rw [message_new_take] at h
  rcases List.mem_append.mp h with h1 | h2
  · rcases List.mem_cons.mp h1 with h3 | h4
    · exact Or.inl h3
    · obtain ⟨e, he, hfst⟩ := List.mem_map.mp h4
      have he1 := List.mem_filter.mp he
      have he2 := List.mem_filter.mp he1.1
      have hs : e.2.is_signer = true := by
        have := he1.2
        simp only [Bool.and_eq_true] at this
        exact this.1
      have := compileKeys_signer (p := e.1) (m := e.2) (by
        obtain ⟨p, m⟩ := e
        exact he2.1) hs
      rw [hfst] at this
      exact this
  · obtain ⟨e, he, hfst⟩ := List.mem_map.mp h2
    have he1 := List.mem_filter.mp he
    have he2 := List.mem_filter.mp he1.1
    have hs : e.2.is_signer = true := by
      have := he1.2
      simp only [Bool.and_eq_true] at this
      exact this.1
    have := compileKeys_signer (p := e.1) (m := e.2) (by
      obtain ⟨p, m⟩ := e
      exact he2.1) hs
    rw [hfst] at this
    exact this

theorem message_required_length (instrs : List Instruction) (payer : Pubkey) :
    ((Message.new instrs payer).account_keys.take
      (Message.new instrs payer).header.num_required_signatures).length =
    (Message.new instrs payer).header.num_required_signatures := by
  rw [message_new_take]
  simp [Message.new, intoMessageComponents]
  omega

theorem mapM_get_signer_ok {sb : SignatureBuilder} {l : List Pubkey}
    (h : ∀ k ∈ l, sb.contains_key k = true) :
    (l.mapM fun key =>
      match sb.get_signer key with
      | some s => Except.ok s
      | none => Except.error key) = Except.ok l := by
  induction l with
  | nil => rfl
  | cons k rest ih =>
    have hk := h k (List.mem_cons_self _ _)
    simp only [SignatureBuilder.contains_key] at hk
    have hg : sb.get_signer k = some k := by
      simp only [SignatureBuilder.get_signer]
      simp [List.elem_iff.mp hk]
    have hrest := ih fun j hj => h j (List.mem_cons_of_mem _ hj)
    rw [List.mapM_cons, hg, hrest]
    rfl

theorem signers_for_new_with_payer {sb : SignatureBuilder}
    {instrs : List Instruction} {payer : Pubkey}
    (hp : sb.contains_key payer = true)
    (hins : ∀ p, SignerIn instrs p → sb.contains_key p = true) :
    sb.signers_for_transaction (Transaction.new_with_payer instrs payer) =
      Except.ok ((Message.new instrs payer).account_keys.take
        (Message.new instrs payer).header.num_required_signatures) := by
  have hmem : ∀ k ∈ (Message.new instrs payer).account_keys.take
      (Message.new instrs payer).header.num_required_signatures,
      sb.contains_key k = true := by
    intro k hk
    rcases message_required_mem hk with h1 | h2
    · rw [h1]
      exact hp
    · exact hins k h2
  exact mapM_get_signer_ok hmem

/-! ## Reachable builder states and their invariants -/

/-- Builder states reachable through the public API (`new` and the state
mutators; the remaining public methods are wrappers around these). `k` in
`add_signer` / `new_signer` models the registered signer's pubkey. -/
inductive Reachable : TransactionBuilder → Prop where
  | init (fee_payer : Pubkey) (max_transaction_size : Nat) :
      Reachable (TransactionBuilder.new fee_payer max_transaction_size)
  | add_signer {b : TransactionBuilder} (k : Pubkey) :
      Reachable b → Reachable (b.add_signer k)
  | new_signer {b : TransactionBuilder} (k : Pubkey) :
      Reachable b → Reachable (b.new_signer k)
  | add_instruction {b b' : TransactionBuilder} {instruction : Instruction}
      {description : Option String} {e : Option TransactionBuildError} :
      Reachable b →
      b.add_instruction_internal instruction description = some (b', e) →
      Reachable b'
  | finish {b b' : TransactionBuilder} :
      Reachable b → b.finish_instruction_pack = some b' → Reachable b'
  | abort {b b' : TransactionBuilder} :
      Reachable b → b.abort_instruction_pack = some b' → Reachable b'
  | build_next {b b' : TransactionBuilder} {r : Option PreparedTransaction} :
      Reachable b → b.build_next = some (b', r) → Reachable b'
  | build_next_combined {b b' : TransactionBuilder}
      {r : Option PreparedTransaction} :
      Reachable b → b.build_next_combined = some (b', r) → Reachable b'

/-- Every `is_signer` account of the instruction has its key in the
registry. -/
def InstrSignersKnown (sb : SignatureBuilder) (ix : Instruction) : Prop :=
  ∀ a ∈ ix.accounts, a.is_signer = true → sb.contains_key a.pubkey = true

/-- Source: `InstrSignersKnown` for every instruction of the pack. -/
def PackSignersKnown (sb : SignatureBuilder) (pack : InstructionPack) : Prop :=
  ∀ pr ∈ pack, InstrSignersKnown sb pr.1

/-- The registry invariant of the builder (the source's comment
"invariant: has signers for all instructions"): the fee payer and every
`is_signer` account of every held instruction are registered. -/
def TransactionBuilder.SignersOk (b : TransactionBuilder) : Prop :=
  b.signature_builder.contains_key b.fee_payer = true ∧
  (∀ pack ∈ b.instruction_packs, PackSignersKnown b.signature_builder pack) ∧
  PackSignersKnown b.signature_builder (b.current_instruction_pack.getD [])

/-- The transaction a pack materializes to. -/
def packTransaction (payer : Pubkey) (pack : InstructionPack) : Transaction :=
  Transaction.new_with_payer (pack.map Prod.fst) payer

/-- The pack's transaction serializes within the size budget. -/
def PackFits (payer : Pubkey) (max : Nat) (pack : InstructionPack) : Prop :=
  serializedTransactionSize (packTransaction payer pack) ≤ max

/-- The size invariant maintained by admission under a positive budget:
every non-empty held pack fits. -/
def TransactionBuilder.PacksFit (b : TransactionBuilder) : Prop :=
  0 < b.max_transaction_size →
    (∀ pack ∈ b.instruction_packs, pack ≠ [] →
      PackFits b.fee_payer b.max_transaction_size pack) ∧
    (∀ l, b.current_instruction_pack = some l → l ≠ [] →
      PackFits b.fee_payer b.max_transaction_size l)

theorem SignatureBuilder.contains_key_add_signer {sb : SignatureBuilder}
    {k j : Pubkey} (h : sb.contains_key j = true) :
    (sb.add_signer k).contains_key j = true := by
  simp only [SignatureBuilder.add_signer, SignatureBuilder.contains_key] at h ⊢
  split
  · exact h
  · simp only [List.contains_eq_any_beq, List.any_append] at h ⊢
    simp [h]

theorem InstrSignersKnown.mono_registry {sb sb' : SignatureBuilder} {ix : Instruction}
    (hmono : ∀ j, sb.contains_key j = true → sb'.contains_key j = true)
    (h : InstrSignersKnown sb ix) : InstrSignersKnown sb' ix :=
  fun a ha hs => hmono _ (h a ha hs)

theorem PackSignersKnown.mono_pack_registry {sb sb' : SignatureBuilder}
    {pack : InstructionPack}
    (hmono : ∀ j, sb.contains_key j = true → sb'.contains_key j = true)
    (h : PackSignersKnown sb pack) : PackSignersKnown sb' pack :=
  fun pr hpr => (h pr hpr).mono_registry hmono

theorem check_signers_none {b : TransactionBuilder} {ix : Instruction}
    (h : b.check_signers ix = none) :
    InstrSignersKnown b.signature_builder ix := by
  intro a ha hs
  simp only [TransactionBuilder.check_signers] at h
  split at h
  · exact absurd h (by simp)
  · next hfind =>
    have := List.find?_eq_none.mp hfind a ha
    simp only [Bool.and_eq_true, Bool.not_eq_true'] at this
    by_contra hc
    exact this ⟨hs, by simpa using hc⟩

theorem normalize_current_some (b : TransactionBuilder) :
    ∃ b1, b.normalize_current = some b1 := by
  unfold TransactionBuilder.normalize_current
  split
  · exact ⟨b, rfl⟩
  · next hne =>
    match hc : b.current_instruction_pack with
    | none =>
      simp [TransactionBuilder.is_current_pack_empty, hc] at hne
    | some l =>
      exact ⟨{ b with instruction_packs := b.instruction_packs ++ [l], current_instruction_pack := some [] }, by simp only [TransactionBuilder.finish_instruction_pack, hc]⟩

theorem normalize_fields {b b1 : TransactionBuilder}
    (hn : b.normalize_current = some b1) :
    b1.fee_payer = b.fee_payer ∧
    b1.signature_builder = b.signature_builder ∧
    b1.max_transaction_size = b.max_transaction_size ∧
    b1.measure = b.measure ∧
    b1.is_current_pack_empty = true ∧
    (∀ pack ∈ b1.instruction_packs,
      pack ∈ b.instruction_packs ∨ b.current_instruction_pack = some pack) := by
  unfold TransactionBuilder.normalize_current at hn
  split at hn
  · next he =>
    cases hn
    exact ⟨rfl, rfl, rfl, rfl, he, fun pack hp => Or.inl hp⟩
  · next hne =>
    match hc : b.current_instruction_pack with
    | none =>
      simp [TransactionBuilder.is_current_pack_empty, hc] at hne
    | some l =>
      simp only [TransactionBuilder.finish_instruction_pack, hc] at hn
      cases hn
      have hle : l.isEmpty = false := by
        simpa [TransactionBuilder.is_current_pack_empty, hc] using hne
      refine ⟨rfl, rfl, rfl, ?_, ?_, ?_⟩
      · simp [TransactionBuilder.measure, TransactionBuilder.is_current_pack_empty, hc,
          hle]
      · simp [TransactionBuilder.is_current_pack_empty]
      · intro pack hp
        rcases List.mem_append.mp hp with h1 | h2
        · exact Or.inl h1
        · have hpl : pack = l := List.mem_singleton.mp h2
          subst hpl
          exact Or.inr rfl

theorem TransactionBuilder.SignersOk.normalize_signers {b b1 : TransactionBuilder} (h : b.SignersOk)
    (hn : b.normalize_current = some b1) : b1.SignersOk := by
  unfold TransactionBuilder.normalize_current at hn
  split at hn
  · cases hn
    exact h
  · next hne =>
    match hc : b.current_instruction_pack with
    | none =>
      simp [TransactionBuilder.is_current_pack_empty, hc] at hne
    | some l =>
      simp only [TransactionBuilder.finish_instruction_pack, hc] at hn
      cases hn
      obtain ⟨hp, hpacks, hcur⟩ := h
      refine ⟨hp, ?_, ?_⟩
      · intro pack hpk
        rcases List.mem_append.mp hpk with h1 | h2
        · exact hpacks pack h1
        · rw [List.mem_singleton.mp h2]
          simpa [hc] using hcur
      · intro pr hpr
        simp at hpr

theorem SignersOk_new (fee_payer : Pubkey) (max_transaction_size : Nat) :
    (TransactionBuilder.new fee_payer max_transaction_size).SignersOk := by
  refine ⟨?_, ?_, ?_⟩
  · simp [TransactionBuilder.new, SignatureBuilder.empty,
      SignatureBuilder.add_signer, SignatureBuilder.contains_key]
  · intro pack hp
    simp [TransactionBuilder.new] at hp
  · intro pr hpr
    simp [TransactionBuilder.new] at hpr

theorem TransactionBuilder.SignersOk.add_signer_signers {b : TransactionBuilder} {k : Pubkey}
    (h : b.SignersOk) : (b.add_signer k).SignersOk := by
  obtain ⟨hp, hpacks, hcur⟩ := h
  refine ⟨SignatureBuilder.contains_key_add_signer hp, ?_, ?_⟩
  · intro pack hpk
    exact (hpacks pack hpk).mono_pack_registry fun j => SignatureBuilder.contains_key_add_signer
  · exact hcur.mono_pack_registry fun j => SignatureBuilder.contains_key_add_signer

theorem TransactionBuilder.SignersOk.add_instruction_signers {b b' : TransactionBuilder}
    {ix : Instruction} {d : Option String} {e : Option TransactionBuildError}
    (h : b.SignersOk) (hadd : b.add_instruction_internal ix d = some (b', e)) :
    b'.SignersOk := by
  unfold TransactionBuilder.add_instruction_internal at hadd
  split at hadd
  · cases hadd
    exact h
  · next hcs =>
    match hc : b.current_instruction_pack with
    | none =>
      rw [hc] at hadd
      exact absurd hadd (by simp)
    | some l =>
      rw [hc] at hadd
      obtain ⟨hp, hpacks, hcur⟩ := h
      have hl : PackSignersKnown b.signature_builder l := by simpa [hc] using hcur
      simp only at hadd
      split at hadd
      · cases hadd
        refine ⟨hp, hpacks, ?_⟩
        simp only [Option.getD_some, List.dropLast_concat]
        exact hl
      · cases hadd
        refine ⟨hp, hpacks, ?_⟩
        simp only [Option.getD_some]
        intro pr hpr
        rcases List.mem_append.mp hpr with h1 | h2
        · exact hl pr h1
        · rw [List.mem_singleton.mp h2]
          exact check_signers_none hcs

theorem TransactionBuilder.SignersOk.finish_signers {b b' : TransactionBuilder} (h : b.SignersOk)
    (hf : b.finish_instruction_pack = some b') : b'.SignersOk := by
  unfold TransactionBuilder.finish_instruction_pack at hf
  match hc : b.current_instruction_pack with
  | none =>
    rw [hc] at hf
    exact absurd hf (by simp)
  | some l =>
    rw [hc] at hf
    cases hf
    obtain ⟨hp, hpacks, hcur⟩ := h
    refine ⟨hp, ?_, ?_⟩
    · intro pack hpk
      rcases List.mem_append.mp hpk with h1 | h2
      · exact hpacks pack h1
      · rw [List.mem_singleton.mp h2]
        simpa [hc] using hcur
    · intro pr hpr
      simp at hpr

theorem TransactionBuilder.SignersOk.abort_signers {b b' : TransactionBuilder} (h : b.SignersOk)
    (ha : b.abort_instruction_pack = some b') : b'.SignersOk := by
  unfold TransactionBuilder.abort_instruction_pack at ha
  match hc : b.current_instruction_pack with
  | none =>
    rw [hc] at ha
    exact absurd ha (by simp)
  | some l =>
    rw [hc] at ha
    cases ha
    obtain ⟨hp, hpacks, _⟩ := h
    exact ⟨hp, hpacks, fun pr hpr => by simp at hpr⟩

theorem combineLoop_remaining_mem (payer : Pubkey) (max : Nat) :
    ∀ (packs : List InstructionPack) (instrs : List Instruction)
      (descs : List (Option String)) (tx : Transaction)
      (pack : InstructionPack),
      pack ∈ (combineLoop payer max instrs descs tx packs).remaining →
      pack ∈ packs := by
  intro packs
  induction packs with
  | nil =>
    intro instrs descs tx pack h
    simp [combineLoop] at h
  | cons next rest ih =>
    intro instrs descs tx pack h
    simp only [combineLoop] at h
    split at h
    · exact List.mem_cons_of_mem _ (ih _ _ _ _ h)
    · exact h

theorem TransactionBuilder.SignersOk.build_next_signers {b b' : TransactionBuilder}
    {r : Option PreparedTransaction} (h : b.SignersOk)
    (hb : b.build_next = some (b', r)) : b'.SignersOk := by
  unfold TransactionBuilder.build_next at hb
  obtain ⟨b1, hn⟩ := normalize_current_some b
  rw [hn] at hb
  have h1 : b1.SignersOk := h.normalize_signers hn
  simp only at hb
  split at hb
  · cases hb
    exact h1
  · split at hb
    · cases hb
      exact h1
    · next pack rest hpacks =>
      split at hb
      · exact absurd hb (by simp)
      · cases hb
        obtain ⟨hp, hpk, hcur⟩ := h1
        refine ⟨hp, ?_, hcur⟩
        intro p hpmem
        exact hpk p (by rw [hpacks]; exact List.mem_cons_of_mem _ hpmem)

theorem TransactionBuilder.SignersOk.build_next_combined_signers {b b' : TransactionBuilder}
    {r : Option PreparedTransaction} (h : b.SignersOk)
    (hb : b.build_next_combined = some (b', r)) : b'.SignersOk := by
  unfold TransactionBuilder.build_next_combined at hb
  obtain ⟨b1, hn⟩ := normalize_current_some b
  rw [hn] at hb
  have h1 : b1.SignersOk := h.normalize_signers hn
  simp only at hb
  split at hb
  · cases hb
    exact h1
  · split at hb
    · split at hb
      · exact absurd hb (by simp)
      · cases hb
        obtain ⟨hp, _, hcur⟩ := h1
        exact ⟨hp, fun p hp' => by simp at hp', hcur⟩
    · split at hb
      · cases hb
        exact h1
      · next first rest hpacks =>
        split at hb
        · exact absurd hb (by simp)
        · cases hb
          obtain ⟨hp, hpk, hcur⟩ := h1
          refine ⟨hp, ?_, hcur⟩
          intro p hpmem
          have := combineLoop_remaining_mem _ _ _ _ _ _ _ hpmem
          exact hpk p (by rw [hpacks]; exact List.mem_cons_of_mem _ this)

/-- Every reachable builder satisfies the registry invariant. -/
theorem Reachable.signersOk {b : TransactionBuilder} (h : Reachable b) :
    b.SignersOk := by
  induction h with
  | init fee_payer max_transaction_size => exact SignersOk_new _ _
  | add_signer k _ ih => exact ih.add_signer_signers
  | new_signer k _ ih => exact ih.add_signer_signers
  | add_instruction _ hadd ih => exact ih.add_instruction_signers hadd
  | finish _ hf ih => exact ih.finish_signers hf
  | abort _ ha ih => exact ih.abort_signers ha
  | build_next _ hb ih => exact ih.build_next_signers hb
  | build_next_combined _ hb ih => exact ih.build_next_combined_signers hb

theorem combineLoop_remaining_length (payer : Pubkey) (max : Nat) :
    ∀ (packs : List InstructionPack) (instrs : List Instruction)
      (descs : List (Option String)) (tx : Transaction),
      (combineLoop payer max instrs descs tx packs).remaining.length ≤
        packs.length := by
  intro packs
  induction packs with
  | nil =>
    intro instrs descs tx
    simp [combineLoop]
  | cons next rest ih =>
    intro instrs descs tx
    simp only [combineLoop]
    split
    · exact le_trans (ih _ _ _) (Nat.le_succ _)
    · simp

theorem combineLoop_size (payer : Pubkey) (max : Nat) :
    ∀ (packs : List InstructionPack) (instrs : List Instruction)
      (descs : List (Option String)) (tx : Transaction),
      serializedTransactionSize tx ≤ max →
      serializedTransactionSize
        (combineLoop payer max instrs descs tx packs).transaction ≤ max := by
  intro packs
  induction packs with
  | nil =>
    intro instrs descs tx h
    exact h
  | cons next rest ih =>
    intro instrs descs tx h
    simp only [combineLoop]
    split
    · next hfits => exact ih _ _ _ hfits
    · exact h

theorem PacksFit_new (fee_payer : Pubkey) (max_transaction_size : Nat) :
    (TransactionBuilder.new fee_payer max_transaction_size).PacksFit := by
  intro _
  constructor
  · intro pack hp
    simp [TransactionBuilder.new] at hp
  · intro l hl
    simp only [TransactionBuilder.new] at hl
    cases hl
    intro hne
    simp at hne

theorem TransactionBuilder.PacksFit.add_signer_fits {b : TransactionBuilder}
    {k : Pubkey} (h : b.PacksFit) : (b.add_signer k).PacksFit := h

theorem TransactionBuilder.PacksFit.add_instruction_fits
    {b b' : TransactionBuilder} {ix : Instruction} {d : Option String}
    {e : Option TransactionBuildError} (h : b.PacksFit)
    (hadd : b.add_instruction_internal ix d = some (b', e)) : b'.PacksFit := by
  unfold TransactionBuilder.add_instruction_internal at hadd
  split at hadd
  · cases hadd
    exact h
  · match hc : b.current_instruction_pack with
    | none =>
      rw [hc] at hadd
      exact absurd hadd (by simp)
    | some l =>
      rw [hc] at hadd
      simp only at hadd
      split at hadd
      · cases hadd
        intro hmax
        obtain ⟨hpacks, hcur⟩ := h hmax
        refine ⟨hpacks, ?_⟩
        intro l' hl' hne
        simp only [List.dropLast_concat] at hl'
        cases hl'
        exact hcur l hc hne
      · next hfit =>
        cases hadd
        intro hmax
        obtain ⟨hpacks, hcur⟩ := h hmax
        refine ⟨hpacks, ?_⟩
        intro l' hl' _
        cases hl'
        have : ¬ b.max_transaction_size <
            serializedTransactionSize
              (Transaction.new_with_payer ((l ++ [(ix, d)]).map Prod.fst)
                b.fee_payer) := by
          intro hlt
          exact hfit ⟨hmax, hlt⟩
        exact Nat.le_of_not_lt this

theorem TransactionBuilder.PacksFit.finish_fits {b b' : TransactionBuilder}
    (h : b.PacksFit) (hf : b.finish_instruction_pack = some b') :
    b'.PacksFit := by
  unfold TransactionBuilder.finish_instruction_pack at hf
  match hc : b.current_instruction_pack with
  | none =>
    rw [hc] at hf
    exact absurd hf (by simp)
  | some l =>
    rw [hc] at hf
    cases hf
    intro hmax
    obtain ⟨hpacks, hcur⟩ := h hmax
    refine ⟨?_, ?_⟩
    · intro pack hp hne
      rcases List.mem_append.mp hp with h1 | h2
      · exact hpacks pack h1 hne
      · have hpl : pack = l := List.mem_singleton.mp h2
        subst hpl
        exact hcur pack hc hne
    · intro l' hl' hne
      cases hl'
      simp at hne

theorem TransactionBuilder.PacksFit.abort_fits {b b' : TransactionBuilder}
    (h : b.PacksFit) (ha : b.abort_instruction_pack = some b') :
    b'.PacksFit := by
  unfold TransactionBuilder.abort_instruction_pack at ha
  match hc : b.current_instruction_pack with
  | none =>
    rw [hc] at ha
    exact absurd ha (by simp)
  | some l =>
    rw [hc] at ha
    cases ha
    intro hmax
    obtain ⟨hpacks, _⟩ := h hmax
    exact ⟨hpacks, fun l' hl' => by simp at hl'⟩

theorem TransactionBuilder.PacksFit.normalize_fits {b b1 : TransactionBuilder}
    (h : b.PacksFit) (hn : b.normalize_current = some b1) : b1.PacksFit := by
  unfold TransactionBuilder.normalize_current at hn
  split at hn
  · cases hn
    exact h
  · exact h.finish_fits hn

theorem TransactionBuilder.PacksFit.build_next_fits {b b' : TransactionBuilder}
    {r : Option PreparedTransaction} (h : b.PacksFit)
    (hb : b.build_next = some (b', r)) : b'.PacksFit := by
  unfold TransactionBuilder.build_next at hb
  obtain ⟨b1, hn⟩ := normalize_current_some b
  rw [hn] at hb
  have h1 : b1.PacksFit := h.normalize_fits hn
  simp only at hb
  split at hb
  · cases hb
    exact h1
  · split at hb
    · cases hb
      exact h1
    · next pack rest hpacks =>
      split at hb
      · exact absurd hb (by simp)
      · cases hb
        intro hmax
        obtain ⟨hpk, hcur⟩ := h1 hmax
        refine ⟨?_, hcur⟩
        intro p hpmem
        exact hpk p (by rw [hpacks]; exact List.mem_cons_of_mem _ hpmem)

theorem TransactionBuilder.PacksFit.build_next_combined_fits
    {b b' : TransactionBuilder} {r : Option PreparedTransaction}
    (h : b.PacksFit) (hb : b.build_next_combined = some (b', r)) :
    b'.PacksFit := by
  unfold TransactionBuilder.build_next_combined at hb
  obtain ⟨b1, hn⟩ := normalize_current_some b
  rw [hn] at hb
  have h1 : b1.PacksFit := h.normalize_fits hn
  simp only at hb
  split at hb
  · cases hb
    exact h1
  · split at hb
    · split at hb
      · exact absurd hb (by simp)
      · cases hb
        intro hmax
        obtain ⟨_, hcur⟩ := h1 hmax
        exact ⟨fun p hp' => by simp at hp', hcur⟩
    · split at hb
      · cases hb
        exact h1
      · next first rest hpacks =>
        split at hb
        · exact absurd hb (by simp)
        · cases hb
          intro hmax
          obtain ⟨hpk, hcur⟩ := h1 hmax
          refine ⟨?_, hcur⟩
          intro p hpmem
          have := combineLoop_remaining_mem _ _ _ _ _ _ _ hpmem
          exact hpk p (by rw [hpacks]; exact List.mem_cons_of_mem _ this)

/-- Every reachable builder satisfies the size invariant. -/
theorem Reachable.packsFit {b : TransactionBuilder} (h : Reachable b) :
    b.PacksFit := by
  induction h with
  | init fee_payer max_transaction_size => exact PacksFit_new _ _
  | add_signer k _ ih => exact ih.add_signer_fits
  | new_signer k _ ih => exact ih.add_signer_fits
  | add_instruction _ hadd ih => exact ih.add_instruction_fits hadd
  | finish _ hf ih => exact ih.finish_fits hf
  | abort _ ha ih => exact ih.abort_fits ha
  | build_next _ hb ih => exact ih.build_next_fits hb
  | build_next_combined _ hb ih => exact ih.build_next_combined_fits hb

theorem PreparedTransaction.new_ok_facts {tx : Transaction}
    {sb : SignatureBuilder} {d : List (Option String)}
    {pt : PreparedTransaction}
    (h : PreparedTransaction.new tx sb d = Except.ok pt) :
    pt.transaction = tx ∧ pt.instruction_descriptions = d := by
  unfold PreparedTransaction.new at h
  split at h
  · exact absurd h (by simp)
  · cases h
    exact ⟨rfl, rfl⟩

/-- Claim C1 (amended): for every reachable builder with a positive size
budget that can accommodate at least the instruction-less transaction
(134 bytes — see `c1_counterexample` for why this proviso is needed), every
prepared transaction emitted by `build_next` or `build_next_combined`
serializes to at most `max_transaction_size` bytes. -/
theorem c1_emitted_transaction_size {b b' : TransactionBuilder}
    {pt : PreparedTransaction} (hre : Reachable b)
    (hmax : 0 < b.max_transaction_size)
    (hempty : serializedTransactionSize (packTransaction b.fee_payer []) ≤
      b.max_transaction_size)
    (h : b.build_next = some (b', some pt) ∨
      b.build_next_combined = some (b', some pt)) :
    serializedTransactionSize pt.transaction ≤ b.max_transaction_size := by
  have hfit := hre.packsFit
  obtain ⟨b1, hn⟩ := normalize_current_some b
  obtain ⟨hfp, _, hmx, _, _, _⟩ := normalize_fields hn
  have h1 : b1.PacksFit := hfit.normalize_fits hn
  have hall : ∀ pack ∈ b1.instruction_packs,
      serializedTransactionSize (packTransaction b1.fee_payer pack) ≤
        b1.max_transaction_size := by
    intro pack hp
    by_cases hne : pack = []
    · subst hne
      rw [hfp, hmx]
      exact hempty
    · exact (h1 (by rw [hmx]; exact hmax)).1 pack hp hne
  rw [← hmx]
  cases h with
  | inl hbn =>
    unfold TransactionBuilder.build_next at hbn
    rw [hn] at hbn
    simp only at hbn
    split at hbn
    · simp at hbn
    · split at hbn
      · simp at hbn
      · next pack rest hpacks =>
        split at hbn
        · simp at hbn
        · next pt' hpn =>
          have hinj := Option.some.inj hbn
          have hptr : pt' = pt := congrArg Prod.snd hinj |> Option.some.inj
          rw [hptr] at hpn
          have hfacts := PreparedTransaction.new_ok_facts hpn
          rw [hfacts.1]
          exact hall pack (by rw [hpacks]; exact List.mem_cons_self _ _)
  | inr hbc =>
    unfold TransactionBuilder.build_next_combined at hbc
    rw [hn] at hbc
    simp only at hbc
    split at hbc
    · simp at hbc
    · split at hbc
      · next hzero =>
        rw [hmx] at hzero
        omega
      · split at hbc
        · simp at hbc
        · next first rest hpacks =>
          split at hbc
          · simp at hbc
          · next pt' hpn =>
            have hinj := Option.some.inj hbc
            have hptr : pt' = pt := congrArg Prod.snd hinj |> Option.some.inj
            rw [hptr] at hpn
            have hfacts := PreparedTransaction.new_ok_facts hpn
            rw [hfacts.1]
            exact combineLoop_size _ _ _ _ _ _
              (hall first (by rw [hpacks]; exact List.mem_cons_self _ _))

/-- What claim C2 asserts of an emitted prepared transaction: the registry
resolves it without a missing entry, the resolved list is exactly the
required-signatures prefix of the account keys (hence of the header's
length), and each entry is the registry's signer for that key. -/
def EmittedSignersOk (sb : SignatureBuilder) (pt : PreparedTransaction) : Prop :=
  sb.signers_for_transaction pt.transaction = Except.ok pt.signers ∧
  pt.signers.length = pt.transaction.message.header.num_required_signatures ∧
  pt.signers = pt.transaction.message.account_keys.take
    pt.transaction.message.header.num_required_signatures ∧
  ∀ k ∈ pt.signers, sb.get_signer k = some k

theorem new_with_payer_message (instrs : List Instruction) (payer : Pubkey) :
    (Transaction.new_with_payer instrs payer).message = Message.new instrs payer :=
  rfl

theorem get_signer_of_contains {sb : SignatureBuilder} {k : Pubkey}
    (h : sb.contains_key k = true) : sb.get_signer k = some k := by
  simp only [SignatureBuilder.contains_key] at h
  simp [SignatureBuilder.get_signer, List.elem_iff.mp h]

theorem prepared_new_ok {sb : SignatureBuilder} {instrs : List Instruction}
    {payer : Pubkey} (descs : List (Option String))
    (hp : sb.contains_key payer = true)
    (hins : ∀ p, SignerIn instrs p → sb.contains_key p = true) :
    ∃ pt, PreparedTransaction.new (Transaction.new_with_payer instrs payer) sb
        descs = Except.ok pt ∧
      EmittedSignersOk sb pt ∧
      pt.transaction = Transaction.new_with_payer instrs payer ∧
      pt.instruction_descriptions = descs := by
  have hs := signers_for_new_with_payer hp hins
  have hcontains : ∀ k ∈ (Message.new instrs payer).account_keys.take
      (Message.new instrs payer).header.num_required_signatures,
      sb.contains_key k = true := by
    intro k hk
    rcases message_required_mem hk with h1 | h2
    · rw [h1]
      exact hp
    · exact hins k h2
  refine ⟨⟨Transaction.new_with_payer instrs payer,
    (Message.new instrs payer).account_keys.take
      (Message.new instrs payer).header.num_required_signatures, descs⟩,
    ?_, ⟨?_, ?_, ?_, ?_⟩, rfl, rfl⟩
  · unfold PreparedTransaction.new
    rw [hs]
  · exact hs
  · exact message_required_length instrs payer
  · rfl
  · intro k hk
    exact get_signer_of_contains (hcontains k hk)

theorem PackSignersKnown.signerIn {sb : SignatureBuilder}
    {pack : InstructionPack} (h : PackSignersKnown sb pack) :
    ∀ p, SignerIn (pack.map Prod.fst) p → sb.contains_key p = true := by
  intro p hp
  obtain ⟨ix, hix, a, ha, hpk, hs⟩ := hp
  obtain ⟨pr, hpr, hfst⟩ := List.mem_map.mp hix
  have := h pr hpr a (by rw [hfst]; exact ha) hs
  rw [hpk] at this
  exact this

theorem packsSignerIn {sb : SignatureBuilder} {packs : List InstructionPack}
    (h : ∀ pack ∈ packs, PackSignersKnown sb pack) :
    ∀ p, SignerIn (packs.flatten.map Prod.fst) p →
      sb.contains_key p = true := by
  intro p hp
  obtain ⟨ix, hix, a, ha, hpk, hs⟩ := hp
  obtain ⟨pr, hpr, hfst⟩ := List.mem_map.mp hix
  obtain ⟨pack, hpack, hprm⟩ := List.mem_flatten.mp hpr
  have := h pack hpack pr hprm a (by rw [hfst]; exact ha) hs
  rw [hpk] at this
  exact this

theorem combineLoop_transaction (payer : Pubkey) (max : Nat)
    (P : List Instruction → Prop) :
    ∀ (packs : List InstructionPack) (instrs : List Instruction)
      (descs : List (Option String)) (tx : Transaction),
      (∃ is0, tx = Transaction.new_with_payer is0 payer ∧ P is0) →
      P instrs →
      (∀ js pack, P js → pack ∈ packs → P (js ++ pack.map Prod.fst)) →
      ∃ is1, (combineLoop payer max instrs descs tx packs).transaction =
        Transaction.new_with_payer is1 payer ∧ P is1 := by
  intro packs
  induction packs with
  | nil =>
    intro instrs descs tx htx _ _
    simpa [combineLoop] using htx
  | cons next rest ih =>
    intro instrs descs tx htx hinstrs hext
    simp only [combineLoop]
    split
    · apply ih
      · exact ⟨instrs ++ next.map Prod.fst, rfl,
          hext _ _ hinstrs (List.mem_cons_self _ _)⟩
      · exact hext _ _ hinstrs (List.mem_cons_self _ _)
      · intro js pack hP hm
        exact hext _ _ hP (List.mem_cons_of_mem _ hm)
    · exact htx

theorem build_next_emission_facts {b : TransactionBuilder}
    (h : b.SignersOk) :
    b.build_next ≠ none ∧
    ∀ b' pt, b.build_next = some (b', some pt) →
      EmittedSignersOk b.signature_builder pt := by
  obtain ⟨b1, hn⟩ := normalize_current_some b
  obtain ⟨_, hsb, _, _, _, _⟩ := normalize_fields hn
  have h1 := h.normalize_signers hn
  unfold TransactionBuilder.build_next
  rw [hn]
  simp only
  split
  · refine ⟨by simp, ?_⟩
    intro b' pt hh
    simp at hh
  · split
    · refine ⟨by simp, ?_⟩
      intro b' pt hh
      simp at hh
    · next pack rest hpacks =>
      obtain ⟨pt0, hok, hem, _, _⟩ := prepared_new_ok (pack.map Prod.snd) h1.1
        ((h1.2.1 pack (by rw [hpacks]; exact List.mem_cons_self _ _)).signerIn)
      split
      · next k hk =>
        rw [hok] at hk
        exact absurd hk (by simp)
      · next pt0' hk =>
        rw [hok] at hk
        have hpt0 : pt0 = pt0' := Except.ok.inj hk
        refine ⟨by simp, ?_⟩
        intro b' pt hh
        have hinj := Option.some.inj hh
        have hptr : pt0' = pt := congrArg Prod.snd hinj |> Option.some.inj
        rw [← hptr, ← hpt0, ← hsb]
        exact hem

theorem build_next_combined_emission_facts {b : TransactionBuilder}
    (h : b.SignersOk) :
    b.build_next_combined ≠ none ∧
    ∀ b' pt, b.build_next_combined = some (b', some pt) →
      EmittedSignersOk b.signature_builder pt := by
  obtain ⟨b1, hn⟩ := normalize_current_some b
  obtain ⟨_, hsb, _, _, _, _⟩ := normalize_fields hn
  have h1 := h.normalize_signers hn
  unfold TransactionBuilder.build_next_combined
  rw [hn]
  simp only
  split
  · refine ⟨by simp, ?_⟩
    intro b' pt hh
    simp at hh
  · split
    · obtain ⟨pt0, hok, hem, _, _⟩ :=
        prepared_new_ok (b1.instruction_packs.flatten.map Prod.snd) h1.1
          (packsSignerIn h1.2.1)
      split
      · next k hk =>
        rw [hok] at hk
        exact absurd hk (by simp)
      · next pt0' hk =>
        rw [hok] at hk
        have hpt0 : pt0 = pt0' := Except.ok.inj hk
        refine ⟨by simp, ?_⟩
        intro b' pt hh
        have hinj := Option.some.inj hh
        have hptr : pt0' = pt := congrArg Prod.snd hinj |> Option.some.inj
        rw [← hptr, ← hpt0, ← hsb]
        exact hem
    · split
      · refine ⟨by simp, ?_⟩
        intro b' pt hh
        simp at hh
      · next first rest hpacks =>
        have hfirstP : ∀ p, SignerIn (first.map Prod.fst) p →
            b1.signature_builder.contains_key p = true :=
          (h1.2.1 first (by rw [hpacks]; exact List.mem_cons_self _ _)).signerIn
        have hrest : ∀ pack ∈ rest, PackSignersKnown b1.signature_builder pack :=
          fun pack hp => h1.2.1 pack
            (by rw [hpacks]; exact List.mem_cons_of_mem _ hp)
        obtain ⟨is1, htx, hP⟩ := combineLoop_transaction b1.fee_payer
          b1.max_transaction_size
          (fun js => ∀ p, SignerIn js p →
            b1.signature_builder.contains_key p = true)
          rest (first.map Prod.fst) (first.map Prod.snd)
          (Transaction.new_with_payer (first.map Prod.fst) b1.fee_payer)
          ⟨first.map Prod.fst, rfl, hfirstP⟩ hfirstP
          (by
            intro js pack hP hm p hsp
            obtain ⟨ix, hix, a, ha, hpk, hs⟩ := hsp
            rcases List.mem_append.mp hix with h2 | h3
            · exact hP p ⟨ix, h2, a, ha, hpk, hs⟩
            · exact (hrest pack hm).signerIn p ⟨ix, h3, a, ha, hpk, hs⟩)
        rw [htx]
        obtain ⟨pt0, hok, hem, _, _⟩ := prepared_new_ok
          ((combineLoop b1.fee_payer b1.max_transaction_size
            (first.map Prod.fst) (first.map Prod.snd)
            (Transaction.new_with_payer (first.map Prod.fst) b1.fee_payer)
            rest).descriptions) h1.1 hP
        split
        · next k hk =>
          rw [hok] at hk
          exact absurd hk (by simp)
        · next pt0' hk =>
          rw [hok] at hk
          have hpt0 : pt0 = pt0' := Except.ok.inj hk
          refine ⟨by simp, ?_⟩
          intro b' pt hh
          have hinj := Option.some.inj hh
          have hptr : pt0' = pt := congrArg Prod.snd hinj |> Option.some.inj
          rw [← hptr, ← hpt0, ← hsb]
          exact hem

/-- Claim C2: for every reachable builder, `build_next` and
`build_next_combined` never hit their
`.expect("Signature keys must be checked when instruction added")` panic
(modelled as `none`), and every prepared transaction they emit resolves
through `signers_for_transaction` with no missing entries, with as many
entries as the header's `num_required_signatures`, each entry being the
registry's signer for the corresponding account key. -/
theorem c2_signers_resolve {b : TransactionBuilder} (hre : Reachable b) :
    b.build_next ≠ none ∧ b.build_next_combined ≠ none ∧
    ∀ b' pt,
      (b.build_next = some (b', some pt) ∨
        b.build_next_combined = some (b', some pt)) →
      EmittedSignersOk b.signature_builder pt := by
  have hso := hre.signersOk
  obtain ⟨hn1, hf1⟩ := build_next_emission_facts hso
  obtain ⟨hn2, hf2⟩ := build_next_combined_emission_facts hso
  refine ⟨hn1, hn2, ?_⟩
  intro b' pt h
  cases h with
  | inl h => exact hf1 b' pt h
  | inr h => exact hf2 b' pt h

/-! ## Measure and drain lemmas for the two iterators -/

theorem measure_zero_packs {b : TransactionBuilder} (h : b.measure = 0) :
    b.instruction_packs = [] ∧ b.is_current_pack_empty = true := by
  unfold TransactionBuilder.measure at h
  constructor
  · exact List.length_eq_zero.mp (by omega)
  · by_contra hc
    rw [if_neg hc] at h
    omega

theorem build_next_zero {b : TransactionBuilder} (h : b.measure = 0) :
    b.build_next = some (b, none) := by
  obtain ⟨hp, hcur⟩ := measure_zero_packs h
  simp [TransactionBuilder.build_next, TransactionBuilder.normalize_current,
    TransactionBuilder.is_empty, hcur, hp]

theorem build_next_combined_zero {b : TransactionBuilder} (h : b.measure = 0) :
    b.build_next_combined = some (b, none) := by
  obtain ⟨hp, hcur⟩ := measure_zero_packs h
  simp [TransactionBuilder.build_next_combined,
    TransactionBuilder.normalize_current, hcur, hp]

theorem build_next_measure {b b' : TransactionBuilder}
    {pt : PreparedTransaction} (h : b.build_next = some (b', some pt)) :
    b'.measure + 1 = b.measure := by
  unfold TransactionBuilder.build_next at h
  obtain ⟨b1, hn⟩ := normalize_current_some b
  rw [hn] at h
  obtain ⟨_, _, _, hms, hce, _⟩ := normalize_fields hn
  simp only at h
  split at h
  · simp at h
  · split at h
    · simp at h
    · next pack rest hpacks =>
      split at h
      · simp at h
      · have hinj := Option.some.inj h
        have hb' : b' = { b1 with instruction_packs := rest } :=
          (congrArg Prod.fst hinj).symm
        have h1 : ({ b1 with instruction_packs := rest } :
            TransactionBuilder).is_current_pack_empty =
            b1.is_current_pack_empty := rfl
        have hm' : b'.measure = rest.length := by
          rw [hb']
          simp [TransactionBuilder.measure, h1, hce]
        have hm1 : b1.measure = b1.instruction_packs.length := by
          simp [TransactionBuilder.measure, hce]
        rw [← hms, hm', hm1, hpacks]
        simp

theorem build_next_combined_measure {b b' : TransactionBuilder}
    {pt : PreparedTransaction}
    (h : b.build_next_combined = some (b', some pt)) :
    b'.measure < b.measure := by
  unfold TransactionBuilder.build_next_combined at h
  obtain ⟨b1, hn⟩ := normalize_current_some b
  rw [hn] at h
  obtain ⟨_, _, _, hms, hce, _⟩ := normalize_fields hn
  rw [← hms]
  have hmb1 : b1.measure = b1.instruction_packs.length := by
    simp [TransactionBuilder.measure, hce]
  simp only at h
  split at h
  · simp at h
  · next hne =>
    have hlen : 0 < b1.instruction_packs.length := by
      cases hl : b1.instruction_packs with
      | nil => rw [hl] at hne; simp at hne
      | cons a as => simp [hl]
    split at h
    · split at h
      · simp at h
      · have hinj := Option.some.inj h
        have hb' : b' = { b1 with instruction_packs := ([] : List InstructionPack) } :=
          (congrArg Prod.fst hinj).symm
        have h1 : ({ b1 with instruction_packs := ([] : List InstructionPack) } :
            TransactionBuilder).is_current_pack_empty =
            b1.is_current_pack_empty := rfl
        have hm' : b'.measure = 0 := by
          rw [hb']
          simp [TransactionBuilder.measure, h1, hce]
        rw [hm', hmb1]
        exact hlen
    · split at h
      · simp at h
      · next first rest hpacks =>
        split at h
        · simp at h
        · have hinj := Option.some.inj h
          have hb' : b' = { b1 with instruction_packs :=
              (combineLoop b1.fee_payer b1.max_transaction_size
                (first.map Prod.fst) (first.map Prod.snd)
                (Transaction.new_with_payer (first.map Prod.fst) b1.fee_payer)
                rest).remaining } :=
            (congrArg Prod.fst hinj).symm
          have hrem := combineLoop_remaining_length b1.fee_payer
            b1.max_transaction_size rest (first.map Prod.fst)
            (first.map Prod.snd)
            (Transaction.new_with_payer (first.map Prod.fst) b1.fee_payer)
          have h1 : ({ b1 with instruction_packs :=
              (combineLoop b1.fee_payer b1.max_transaction_size
                (first.map Prod.fst) (first.map Prod.snd)
                (Transaction.new_with_payer (first.map Prod.fst) b1.fee_payer)
                rest).remaining } :
              TransactionBuilder).is_current_pack_empty =
              b1.is_current_pack_empty := rfl
          have hm' : b'.measure =
              (combineLoop b1.fee_payer b1.max_transaction_size
                (first.map Prod.fst) (first.map Prod.snd)
                (Transaction.new_with_payer (first.map Prod.fst) b1.fee_payer)
                rest).remaining.length := by
            rw [hb']
            simp [TransactionBuilder.measure, h1, hce]
          rw [hm', hmb1, hpacks]
          simp only [List.length_cons]
          omega

theorem build_next_none_measure {b b' : TransactionBuilder}
    (h : b.build_next = some (b', none)) : b.measure = 0 := by
  unfold TransactionBuilder.build_next at h
  obtain ⟨b1, hn⟩ := normalize_current_some b
  rw [hn] at h
  obtain ⟨_, _, _, hms, hce, _⟩ := normalize_fields hn
  simp only at h
  split at h
  · next hie =>
    have hpk : b1.instruction_packs.isEmpty = true := by
      simp only [TransactionBuilder.is_empty, Bool.and_eq_true] at hie
      exact hie.2
    rw [← hms]
    simp [TransactionBuilder.measure, hce, List.isEmpty_iff.mp hpk]
  · split at h
    · next hpacks =>
      rw [← hms]
      simp [TransactionBuilder.measure, hce, hpacks]
    · split at h
      · simp at h
      · simp at h

theorem build_next_emits {b : TransactionBuilder} (h : b.SignersOk)
    (hm : 0 < b.measure) : ∃ b' pt, b.build_next = some (b', some pt) := by
  cases h2 : b.build_next with
  | none => exact absurd h2 (build_next_emission_facts h).1
  | some p =>
    obtain ⟨b', r⟩ := p
    cases r with
    | none =>
      have := build_next_none_measure h2
      omega
    | some pt => exact ⟨b', pt, rfl⟩

theorem drainSeqFuel_length {n : Nat} : ∀ {b : TransactionBuilder},
    b.SignersOk → b.measure = n → (drainSeqFuel n b).2.length = n := by
  induction n with
  | zero =>
    intro b _ _
    rfl
  | succ n ih =>
    intro b h hm
    obtain ⟨b', pt, heq⟩ := build_next_emits h (by omega)
    have hm' : b'.measure = n := by
      have := build_next_measure heq
      omega
    have h' : b'.SignersOk := h.build_next_signers heq
    simp only [drainSeqFuel, heq]
    simp [ih h' hm']

theorem drainCombinedFuel_le_measure : ∀ (f : Nat) (b : TransactionBuilder),
    (drainCombinedFuel f b).2.length ≤ b.measure := by
  intro f
  induction f with
  | zero =>
    intro b
    simp [drainCombinedFuel]
  | succ f ih =>
    intro b
    simp only [drainCombinedFuel]
    cases h : b.build_next_combined with
    | none => simp
    | some p =>
      obtain ⟨b', r⟩ := p
      cases r with
      | none => simp
      | some pt =>
        have hlt := build_next_combined_measure h
        have hrec := ih b'
        simp only [List.length_cons]
        omega

theorem drainSeqFuel_stable : ∀ (f : Nat) (b : TransactionBuilder),
    b.measure ≤ f → drainSeqFuel f b = drainSeqFuel b.measure b := by
  intro f
  induction f with
  | zero =>
    intro b hb
    rw [Nat.le_zero.mp hb]
  | succ f ih =>
    intro b hb
    cases hm : b.measure with
    | zero =>
      have hz := build_next_zero hm
      simp [drainSeqFuel, hz]
    | succ m =>
      simp only [drainSeqFuel]
      cases h : b.build_next with
      | none => rfl
      | some p =>
        obtain ⟨b', r⟩ := p
        cases r with
        | none => rfl
        | some pt =>
          have hm' : b'.measure = m := by
            have := build_next_measure h
            omega
          have he : drainSeqFuel f b' = drainSeqFuel b'.measure b' :=
            ih b' (by omega)
          simp only []
          rw [he, hm']

theorem drainCombinedFuel_stable : ∀ (f : Nat) (b : TransactionBuilder),
    b.measure ≤ f → drainCombinedFuel f b = drainCombinedFuel b.measure b := by
  intro f
  induction f using Nat.strong_induction_on with
  | _ f ih =>
    intro b hb
    cases f with
    | zero => rw [Nat.le_zero.mp hb]
    | succ g =>
      cases hm : b.measure with
      | zero =>
        have hz := build_next_combined_zero hm
        simp [drainCombinedFuel, hz]
      | succ k =>
        simp only [drainCombinedFuel]
        cases h : b.build_next_combined with
        | none => rfl
        | some p =>
          obtain ⟨b', r⟩ := p
          cases r with
          | none => rfl
          | some pt =>
            have hlt : b'.measure < k + 1 := by
              have := build_next_combined_measure h
              omega
            have e1 : drainCombinedFuel g b' = drainCombinedFuel b'.measure b' :=
              ih g (Nat.lt_succ_self g) b' (by omega)
            have e2 : drainCombinedFuel k b' = drainCombinedFuel b'.measure b' :=
              ih k (by omega) b' (by omega)
            simp only []
            rw [e1, e2]

/-- Claim C7: from any builder state whose held instructions all have their
signers registered (so that iteration is defined — otherwise the source
panics mid-drain), exhausting `sequence_combined()` yields at most as many
prepared transactions as exhausting `sequence()` from that same state. -/
theorem c7_combined_le_seq {b : TransactionBuilder} (h : b.SignersOk) :
    b.drainCombined.2.length ≤ b.drainSeq.2.length := by
  unfold TransactionBuilder.drainCombined TransactionBuilder.drainSeq
  rw [drainSeqFuel_length h rfl]
  exact drainCombinedFuel_le_measure b.measure b

instance (sb : SignatureBuilder) (ix : Instruction) :
    Decidable (InstrSignersKnown sb ix) := by
  unfold InstrSignersKnown
  infer_instance

instance (sb : SignatureBuilder) (pack : InstructionPack) :
    Decidable (PackSignersKnown sb pack) := by
  unfold PackSignersKnown
  infer_instance

instance (b : TransactionBuilder) : Decidable b.SignersOk := by
  unfold TransactionBuilder.SignersOk
  infer_instance

/-! ## Claim theorems, counterexamples, witnesses -/

/-- A minimal instruction: invokes program `1`, no accounts, no data. -/
def exampleInstruction : Instruction := ⟨1, [], []⟩

/-- Claim C4: whenever `add_instruction` or
`add_instruction_with_description` returns an error (`UnknownSigner` or
`TooBigTransaction`), the builder's observable state — current pack,
completed packs, registry — is exactly as before the call: the offending
instruction and its description are not retained (the `TooBigTransaction`
path pushes and then pops the instruction). -/
theorem c4_error_leaves_builder_unchanged {b b' : TransactionBuilder}
    {instruction : Instruction} {description : String}
    {e : TransactionBuildError}
    (h : b.add_instruction instruction = some (b', some e) ∨
      b.add_instruction_with_description instruction description =
        some (b', some e)) :
    b' = b := by
  have key : ∀ d : Option String,
      b.add_instruction_internal instruction d = some (b', some e) →
      b' = b := by
    intro d hadd
    unfold TransactionBuilder.add_instruction_internal at hadd
    split at hadd
    · exact (congrArg Prod.fst (Option.some.inj hadd)).symm
    · match hc : b.current_instruction_pack with
      | none =>
        rw [hc] at hadd
        exact absurd hadd (by simp)
      | some l =>
        rw [hc] at hadd
        simp only at hadd
        split at hadd
        · injection Option.some.inj hadd with h1 h2
          subst h1
          rw [List.dropLast_concat, ← hc]
        · have := congrArg Prod.snd (Option.some.inj hadd)
          simp at this
  cases h with
  | inl h => exact key none h
  | inr h => exact key (some description) h

/-- The builder used by the C4 witness: one accepted instruction in the
current pack, with a budget (170 bytes) that the next instruction would
overflow (169 vs 172 bytes serialized). -/
def exampleBuilderTight : TransactionBuilder :=
  { fee_payer := 0, signature_builder := ⟨[0]⟩, instruction_packs := [],
    current_instruction_pack := some [(exampleInstruction, none)],
    max_transaction_size := 170 }

/-- Witness for C4 at a concrete `TooBigTransaction` rejection. -/
theorem c4_witness :
    exampleBuilderTight.add_instruction exampleInstruction =
      some (exampleBuilderTight,
        some TransactionBuildError.TooBigTransaction) ∧
    exampleBuilderTight = exampleBuilderTight :=
  ⟨by decide,
    @c4_error_leaves_builder_unchanged exampleBuilderTight
      exampleBuilderTight exampleInstruction "unused"
      TransactionBuildError.TooBigTransaction (Or.inl (by decide))⟩

/-- The state reached from `TransactionBuilder::new(0, 1)` by
`finish_instruction_pack()` on the empty initial pack. -/
def c1CexBuilder : TransactionBuilder :=
  { fee_payer := 0, signature_builder := ⟨[0]⟩, instruction_packs := [[]],
    current_instruction_pack := some [], max_transaction_size := 1 }

/-- Counterexample to claim C1 as stated: a builder constructed with
`max_size = 1 > 0` reaches `c1CexBuilder` by one `finish_instruction_pack`
call, and `build_next` then emits a prepared transaction serializing to
134 bytes — more than `max_size`.  The admission size check never ran for
this (empty) pack, so nothing bounds the emission by the budget. -/
theorem c1_counterexample :
    (TransactionBuilder.new 0 1).finish_instruction_pack =
      some c1CexBuilder ∧
    (c1CexBuilder.build_next.map fun r =>
      r.2.map fun pt => serializedTransactionSize pt.transaction) =
      some (some 134) ∧
    0 < c1CexBuilder.max_transaction_size ∧
    ¬ (134 ≤ c1CexBuilder.max_transaction_size) :=
  ⟨by decide, by decide, by decide, by decide⟩

/-- A reachable builder holding one accepted instruction (fee payer `5`,
packet-size budget). -/
def exampleBuilder1 : TransactionBuilder :=
  { fee_payer := 5, signature_builder := ⟨[5]⟩, instruction_packs := [],
    current_instruction_pack := some [(exampleInstruction, none)],
    max_transaction_size := 1232 }

/-- The builder left after `exampleBuilder1.build_next`. -/
def exampleAfter1 : TransactionBuilder :=
  { fee_payer := 5, signature_builder := ⟨[5]⟩, instruction_packs := [],
    current_instruction_pack := some [], max_transaction_size := 1232 }

/-- The prepared transaction emitted by `exampleBuilder1.build_next`. -/
def examplePt1 : PreparedTransaction :=
  { transaction :=
      { signatures := [none]
        message :=
          { header := ⟨1, 0, 1⟩
            account_keys := [5, 1]
            recent_blockhash := 0
            instructions := [⟨1, [], []⟩] } }
    signers := [5]
    instruction_descriptions := [none] }

/-- Witness for the amended C1 at a concrete emission. -/
theorem c1_witness :
    0 < exampleBuilder1.max_transaction_size ∧
    serializedTransactionSize (packTransaction exampleBuilder1.fee_payer []) ≤
      exampleBuilder1.max_transaction_size ∧
    exampleBuilder1.build_next = some (exampleAfter1, some examplePt1) ∧
    serializedTransactionSize examplePt1.transaction ≤
      exampleBuilder1.max_transaction_size :=
  ⟨by decide, by decide, by decide,
    @c1_emitted_transaction_size exampleBuilder1 exampleAfter1 examplePt1
      (@Reachable.add_instruction (TransactionBuilder.new 5 1232)
        exampleBuilder1 exampleInstruction none none
        (Reachable.init 5 1232) (by decide))
      (by decide) (by decide) (Or.inl (by decide))⟩

/-- Witness for C2 at a concrete emission. -/
theorem c2_witness :
    exampleBuilder1.build_next = some (exampleAfter1, some examplePt1) ∧
    EmittedSignersOk exampleBuilder1.signature_builder examplePt1 :=
  ⟨by decide,
    (c2_signers_resolve
      (@Reachable.add_instruction (TransactionBuilder.new 5 1232)
        exampleBuilder1 exampleInstruction none none
        (Reachable.init 5 1232) (by decide))).2.2
      exampleAfter1 examplePt1 (Or.inl (by decide))⟩

/-- The builder of the C3 failing input: one completed single-instruction
pack with a description. -/
def c3Builder : TransactionBuilder :=
  { fee_payer := 0, signature_builder := ⟨[0]⟩,
    instruction_packs := [[(exampleInstruction, some "transfer")]],
    current_instruction_pack := some [], max_transaction_size := 1232 }

/-- Claim C3 is contradicted by the code: at a builder whose
`sequence_combined` emits one prepared transaction,
`send_async_transaction_builder_combined` constructs a one-element
`execution_data` vector but sends the empty `async_transaction_builders`
vector through the channel instead. -/
theorem c3_send_async_sends_empty_vector :
    (send_async_transaction_builder_combined "http://rpc" c3Builder
        (some ⟨[⟨100, 200⟩]⟩) (fun _ => "uuid-0")).sent = [] ∧
    (send_async_transaction_builder_combined "http://rpc" c3Builder
        (some ⟨[⟨100, 200⟩]⟩) (fun _ => "uuid-0")).execution_data.length = 1 ∧
    (send_async_transaction_builder_combined "http://rpc" c3Builder
        (some ⟨[⟨100, 200⟩]⟩) (fun _ => "uuid-0")).sent ≠
      (send_async_transaction_builder_combined "http://rpc" c3Builder
        (some ⟨[⟨100, 200⟩]⟩) (fun _ => "uuid-0")).execution_data :=
  ⟨by decide, by decide, by decide⟩

/-- The builder state after `abort_instruction_pack` on a fresh builder: the
current-pack cell is unset (`take()` with no following `set`). -/
def c5AbortedBuilder : TransactionBuilder :=
  { fee_payer := 0, signature_builder := ⟨[0]⟩, instruction_packs := [],
    current_instruction_pack := none, max_transaction_size := 1232 }

/-- Claim C5 is contradicted by the code: `abort_instruction_pack` discards
the current pack but does not start a fresh one (unlike
`finish_instruction_pack`, no `set(Vec::new())` follows the `take()`), so a
subsequent `add_instruction` — whose signer check passes — panics at
`current_instruction_pack.get_mut().unwrap()` (modelled as `none`) instead
of appending to an empty pack. -/
theorem c5_abort_then_add_panics :
    (TransactionBuilder.new 0 1232).abort_instruction_pack =
      some c5AbortedBuilder ∧
    c5AbortedBuilder.check_signers exampleInstruction = none ∧
    c5AbortedBuilder.add_instruction exampleInstruction = none :=
  ⟨by decide, by decide, by decide⟩

/-- The builder of the C6 failing input: two single-instruction packs
(169 bytes each alone, 172 combined) under a 170-byte budget, each
instruction carrying a description. -/
def c6Builder : TransactionBuilder :=
  { fee_payer := 0, signature_builder := ⟨[0]⟩,
    instruction_packs := [[(exampleInstruction, some "first")],
                          [(exampleInstruction, some "second")]],
    current_instruction_pack := some [], max_transaction_size := 170 }

/-- Claim C6 is contradicted by the code: `build_next_combined` extends the
description vector with the peeked pack's descriptions before the size
check and does not roll the extension back on rejection, so the emitted
prepared transaction carries one compiled instruction but both
descriptions, and the rejected pack (with its description) stays queued to
be emitted — and described — again. -/
theorem c6_rejected_pack_descriptions_included :
    (c6Builder.build_next_combined.map fun r =>
      r.2.map fun pt =>
        (pt.transaction.message.instructions.length,
          pt.instruction_descriptions)) =
      some (some (1, [some "first", some "second"])) ∧
    (c6Builder.build_next_combined.map fun r => r.1.instruction_packs) =
      some [[(exampleInstruction, some "second")]] :=
  ⟨by decide, by decide⟩

theorem candidateItemsFrom_length (env : Nat → Except String Hash)
    (d : TransactionBuilderExecutionData) :
    ∀ (cfgs : List PriorityFeeConfiguration) (j : Nat),
      (candidateItemsFrom env d j cfgs).length = cfgs.length := by
  intro cfgs
  induction cfgs with
  | nil => intro j; rfl
  | cons cfg rest ih =>
    intro j
    simp [candidateItemsFrom, ih]

theorem candidateItemsFrom_get (env : Nat → Except String Hash)
    (d : TransactionBuilderExecutionData) :
    ∀ (cfgs : List PriorityFeeConfiguration) (j i : Nat),
      (candidateItemsFrom env d j cfgs).get? i =
        (cfgs.get? i).map fun cfg => d.build (env (j + i)) cfg := by
  intro cfgs
  induction cfgs with
  | nil => intro j i; rfl
  | cons cfg rest ih =>
    intro j i
    cases i with
    | zero => rfl
    | succ i =>
      simp only [candidateItemsFrom, List.get?_cons_succ]
      rw [ih (j + 1) i]
      have : j + 1 + i = j + (i + 1) := by omega
      rw [this]

/-- Claim C8: the candidate stream handed to the executor yields exactly one
item per configuration of the priority-fee policy, in policy order; the
`i`-th item is the result of `build` under the `i`-th configuration with the
blockhash-fetch outcome observed at that yield.  In particular a failed
fetch is yielded as that item's error and neither terminates the stream nor
skips later configurations: the length and the other items are the same for
every fetch-outcome environment. -/
theorem c8_candidate_stream (env : Nat → Except String Hash)
    (d : TransactionBuilderExecutionData) :
    (candidateItems env d).length =
      d.priority_fee_policy.configurations.length ∧
    ∀ i, (candidateItems env d).get? i =
      (d.priority_fee_policy.configurations.get? i).map fun cfg =>
        d.build (env i) cfg := by
  constructor
  · exact candidateItemsFrom_length env d _ 0
  · intro i
    have := candidateItemsFrom_get env d d.priority_fee_policy.configurations 0 i
    simpa using this

/-- Claim C9: converting an `AccountMeta` to a `TransactionAccount` and back
preserves pubkey, `is_signer` and `is_writable`; likewise the round trip
starting from a `TransactionAccount`. -/
theorem c9_account_meta_round_trip :
    (∀ m : AccountMeta,
      TransactionAccount.toAccountMeta (TransactionAccount.fromAccountMeta m) =
        m) ∧
    (∀ a : TransactionAccount,
      TransactionAccount.fromAccountMeta a.toAccountMeta = a) := by
  constructor
  · intro m
    obtain ⟨p, s, w⟩ := m
    cases w <;> rfl
  · intro a
    obtain ⟨p, s, w⟩ := a
    cases w <;> rfl

/-- Claim C10: with `max_transaction_size = 0` (the `unlimited`
constructor's "no cap" encoding), `fits_single_transaction` returns `false`
for every builder state, the empty builder included, because the serialized
length of any transaction is positive and so never ≤ 0. -/
theorem c10_fits_single_transaction_false (b : TransactionBuilder)
    (h : b.max_transaction_size = 0) : b.fits_single_transaction = false := by
  unfold TransactionBuilder.fits_single_transaction
  rw [h]
  have hpos : 0 < serializedTransactionSize
      (Transaction.new_with_payer b.instructions b.fee_payer) := by
    unfold serializedTransactionSize messageSize
    omega
  simp only [decide_eq_false_iff_not]
  omega

/-- Witness for C10 at the `unlimited` constructor's empty builder. -/
theorem c10_witness :
    (TransactionBuilder.unlimited 5).max_transaction_size = 0 ∧
    (TransactionBuilder.unlimited 5).fits_single_transaction = false :=
  ⟨by decide, c10_fits_single_transaction_false _ (by decide)⟩

/-- A builder with two accepted single-instruction packs under the packet
budget, used by the C7 witness. -/
def exampleBuilder2 : TransactionBuilder :=
  { fee_payer := 0, signature_builder := ⟨[0]⟩,
    instruction_packs := [[(exampleInstruction, none)],
                          [(exampleInstruction, none)]],
    current_instruction_pack := some [], max_transaction_size := 1232 }

/-- Witness for C7: from `exampleBuilder2`, `sequence_combined` merges both
packs into one emission while `sequence` emits twice. -/
theorem c7_witness :
    exampleBuilder2.SignersOk ∧
    exampleBuilder2.drainCombined.2.length = 1 ∧
    exampleBuilder2.drainSeq.2.length = 2 ∧
    exampleBuilder2.drainCombined.2.length ≤
      exampleBuilder2.drainSeq.2.length :=
  ⟨by decide, by decide, by decide, c7_combined_le_seq (by decide)⟩
